import Mathlib

/-!
# Packet framing of `mysql/packetio.go`

A shallow embedding of `PacketIO.ReadPacket`, `PacketIO.WritePacket` and
`PacketIO.ReadOK`.

* A byte is a natural number (well-formed bytes are below 256); the `uint8`
  counter `Sequence` is a natural number incremented modulo 256.
* The connection is a record of the bytes still to be delivered by reads, the
  outcomes of the coming `Write` calls and the bytes accepted by each `Write`
  call so far.
* A Go slice is a list; the caller's buffer handed to `WritePacket` is kept as
  the part already left behind by re-slicing (`pre`) and the current window
  (`data`).
* A run-time panic (index or slice bound out of range) is `none`.
* The tag bytes and the codec functions `ReadOK` uses are parameters (`Codec`).
-/

namespace Mysql

/-- Modelled from the spec: the constant `MaxPayloadLen`, which `packetio.go`
uses and another file of the package declares; the spec gives
`MaxPayloadLen = 0x00FFFFFF` (16,777,215). -/
def MaxPayloadLen : Nat := 0xFFFFFF

/-- The errors `ReadPacket` and `WritePacket` return: the package-level
`ErrBadConn`, and the two `fmt.Errorf` values, kept with their arguments. -/
inductive Error where
  | ErrBadConn
  | invalidPayloadLength (length : Nat)
  | invalidSequence (sequence cSequence : Nat)
  deriving DecidableEq, Repr

/-- The duplex stream `net.Conn`, as far as the packet layer uses it. -/
structure Conn where
  /-- Bytes the peer has sent and that no read has consumed yet; after them the
  stream ends (or fails). -/
  unread : List Nat
  /-- Outcome `(n, err ≠ nil)` of each coming `Write` call; once the list is
  used up every write is accepted in full. -/
  outcomes : List (Nat × Bool)
  /-- For each `Write` call so far, in order, the bytes the stream accepted. -/
  written : List (List Nat)
  deriving DecidableEq, Repr

/-- The receiver of the methods: `type PacketIO struct { Conn; Sequence uint8 }`. -/
structure PacketIO where
  Conn : Conn
  Sequence : Nat
  deriving DecidableEq, Repr

/-- `io.ReadFull(c.Conn, buf)` with `len(buf) = n`: the `n` next bytes, or an
error (`none`) when the stream ends before; a read of no byte always succeeds. -/
def ReadFull (conn : Conn) (n : Nat) : Option (List Nat) × Conn :=
  if n ≤ conn.unread.length then
    (some (conn.unread.take n), { conn with unread := conn.unread.drop n })
  else
    (none, { conn with unread := [] })

/-- `c.Conn.Write(p)`: the result `(n, err ≠ nil)` and the stream afterwards. -/
def Conn.Write (conn : Conn) (p : List Nat) : (Nat × Bool) × Conn :=
  match conn.outcomes with
  | [] => ((p.length, false), { conn with written := conn.written ++ [p] })
  | (n, err) :: rest =>
    ((n, err), { conn with outcomes := rest, written := conn.written ++ [p.take n] })

/-- `c.Sequence++` on a `uint8`. -/
def incSequence (c : PacketIO) : PacketIO :=
  { c with Sequence := (c.Sequence + 1) % 256 }

/-- The decoded length of a header:
`int(uint32(header[0]) | uint32(header[1])<<8 | uint32(header[2])<<16)`. -/
def headerLength (header : List Nat) : Nat :=
  header.getD 0 0 ||| (header.getD 1 0 <<< 8) % 2 ^ 32 ||| (header.getD 2 0 <<< 16) % 2 ^ 32

/-- `PacketIO.ReadPacket`: the returned `([]byte, error)` and the receiver
afterwards. -/
def ReadPacket (c : PacketIO) : Except Error (List Nat) × PacketIO :=
  match h : ReadFull c.Conn 4 with
  | (none, conn) => (.error .ErrBadConn, { c with Conn := conn })
  | (some header, conn) =>
    let length := headerLength header
    if length < 1 then
      (.error (.invalidPayloadLength length), { c with Conn := conn })
    else
      let sequence := header.getD 3 0
      if sequence ≠ c.Sequence then
        (.error (.invalidSequence sequence c.Sequence), { c with Conn := conn })
      else
        let c1 := incSequence { c with Conn := conn }
        match h2 : ReadFull c1.Conn length with
        | (none, conn2) => (.error .ErrBadConn, { c1 with Conn := conn2 })
        | (some data, conn2) =>
          if length < MaxPayloadLen then
            (.ok data, { c1 with Conn := conn2 })
          else
            match ReadPacket { c1 with Conn := conn2 } with
            | (.error _, c2) => (.error .ErrBadConn, c2)
            | (.ok buf, c2) => (.ok (data ++ buf), c2)
termination_by c.Conn.unread.length
decreasing_by
  simp only [ReadFull] at h h2
  split at h
  · split at h2
    · cases h
      cases h2
      have e : c1.Conn.unread.length = c.Conn.unread.length - 4 := by
        simp only [c1, incSequence, List.length_drop]
      simp only [List.length_drop]
      omega
    · cases h2
  · cases h

/-- What `ReadPacket c` meets on the stream: the number of frames whose header
it reads and accepts (declared length at least 1, sequence byte equal to the
counter), and the number of frames it reads completely (accepted header and
the full declared payload). It follows the control flow of `ReadPacket`. -/
def frameCounts (c : PacketIO) : Nat × Nat :=
  match h : ReadFull c.Conn 4 with
  | (none, _) => (0, 0)
  | (some header, conn) =>
    let length := headerLength header
    if length < 1 then
      (0, 0)
    else if header.getD 3 0 ≠ c.Sequence then
      (0, 0)
    else
      match h2 : ReadFull conn length with
      | (none, _) => (1, 0)
      | (some _, conn2) =>
        if length < MaxPayloadLen then
          (1, 1)
        else
          let n := frameCounts (incSequence { c with Conn := conn2 })
          (n.1 + 1, n.2 + 1)
termination_by c.Conn.unread.length
decreasing_by
  simp only [ReadFull] at h h2
  split at h
  · split at h2
    · cases h
      cases h2
      simp only [incSequence, List.length_drop]
      omega
    · cases h2
  · cases h

/-- The store `data[i] = v`; `none` is the index-out-of-range panic. -/
def setIndex (data : List Nat) (i v : Nat) : Option (List Nat) :=
  if i < data.length then some (data.set i v) else none

/-- The slice expression `data[:high]`; `none` is the out-of-range panic. -/
def sliceTo (data : List Nat) (high : Nat) : Option (List Nat) :=
  if high ≤ data.length then some (data.take high) else none

/-- The slice expression `data[low:]`; `none` is the out-of-range panic. -/
def sliceFrom (data : List Nat) (low : Nat) : Option (List Nat) :=
  if low ≤ data.length then some (data.drop low) else none

/-- The conversion `byte(x)` of an `int`: its low 8 bits. -/
def byte (x : Int) : Nat := (x % 256).toNat

/-- The four stores `data[0] = b0; data[1] = b1; data[2] = b2; data[3] = b3`. -/
def storeHeader (data : List Nat) (b0 b1 b2 b3 : Nat) : Option (List Nat) :=
  (setIndex data 0 b0).bind fun d0 =>
  (setIndex d0 1 b1).bind fun d1 =>
  (setIndex d1 2 b2).bind fun d2 =>
  setIndex d2 3 b3

/-- What a `WritePacket` call that does not panic leaves behind. -/
structure WriteResult where
  /-- The returned error; `none` is `nil`. -/
  err : Option Error
  /-- The receiver afterwards. -/
  c : PacketIO
  /-- The caller's buffer afterwards. -/
  buffer : List Nat
  deriving DecidableEq, Repr

/-- The body of `WritePacket` from the loop on: `pre` is the part of the
caller's buffer that re-slicing has left behind, `data` the current window and
`length` the local variable. -/
def writeFrames (c : PacketIO) (pre data : List Nat) (length : Int) : Option WriteResult :=
  if h : length ≥ MaxPayloadLen then
    match storeHeader data 0xff 0xff 0xff c.Sequence with
    | none => none
    | some data1 =>
      match sliceTo data1 (4 + MaxPayloadLen) with
      | none => none
      | some p =>
        match c.Conn.Write p with
        | ((n, err), conn) =>
          if err then
            some ⟨some .ErrBadConn, { c with Conn := conn }, pre ++ data1⟩
          else if n ≠ 4 + MaxPayloadLen then
            some ⟨some .ErrBadConn, { c with Conn := conn }, pre ++ data1⟩
          else
            match sliceFrom data1 MaxPayloadLen with
            | none => none
            | some data2 =>
              writeFrames (incSequence { c with Conn := conn })
                (pre ++ data1.take MaxPayloadLen) data2 (length - MaxPayloadLen)
  else
    match storeHeader data (byte length) (byte (length >>> (8 : Nat))) (byte (length >>> (16 : Nat)))
        c.Sequence with
    | none => none
    | some data1 =>
      match c.Conn.Write data1 with
      | ((n, err), conn) =>
        if err then
          some ⟨some .ErrBadConn, { c with Conn := conn }, pre ++ data1⟩
        else if n ≠ data1.length then
          some ⟨some .ErrBadConn, { c with Conn := conn }, pre ++ data1⟩
        else
          some ⟨none, incSequence { c with Conn := conn }, pre ++ data1⟩
termination_by length.toNat
decreasing_by
  have hM : (MaxPayloadLen : Int) = 16777215 := by simp [MaxPayloadLen]
  omega

/-- `PacketIO.WritePacket`: `none` is a run-time panic, otherwise the returned
error, the receiver and the caller's buffer afterwards. -/
def WritePacket (c : PacketIO) (data : List Nat) : Option WriteResult :=
  writeFrames c [] data ((data.length : Int) - 4)

/-- The wire format the specification gives for a payload `P` sent with the
counter at `s`: with `q = len(P) / MaxPayloadLen` and `r = len(P) mod
MaxPayloadLen`, for `i < q` the frame `FF FF FF ((s+i) mod 256)` followed by
`P[i*MaxPayloadLen .. (i+1)*MaxPayloadLen)`, then the frame with header
`[r & 0xFF, (r>>8) & 0xFF, (r>>16) & 0xFF, (s+q) mod 256]` followed by the last
`r` bytes of `P`. -/
def wireFrames (s : Nat) (P : List Nat) : List (List Nat) :=
  (List.range (P.length / MaxPayloadLen)).map
      (fun i => 0xFF :: 0xFF :: 0xFF :: (s + i) % 256 ::
        (P.drop (i * MaxPayloadLen)).take MaxPayloadLen)
    ++ [((P.length % MaxPayloadLen) &&& 0xFF) ::
        (((P.length % MaxPayloadLen) >>> 8) &&& 0xFF) ::
        (((P.length % MaxPayloadLen) >>> 16) &&& 0xFF) ::
        (s + P.length / MaxPayloadLen) % 256 ::
        P.drop (P.length - P.length % MaxPayloadLen)]

/-- The payload length a physical frame declares in its header. -/
def declaredLength (frame : List Nat) : Nat :=
  headerLength (frame.take 4)

/-- The parts of the package that `ReadOK` uses and `packetio.go` does not
declare, taken as parameters: the tag bytes `OK_HEADER` and `ERR_HEADER`, and
the codec functions `LoadOK` and `LoadError`, into a type `α` of OK packets and
a type `ε` of decoded errors. -/
structure Codec (α ε : Type) where
  OK_HEADER : Nat
  ERR_HEADER : Nat
  LoadOK : List Nat → α
  LoadError : List Nat → ε

/-- The errors `ReadOK` returns: the error of `ReadPacket` as it is, the value
of `LoadError(data)`, and `errors.New("invalid ok packet")`. -/
inductive ReplyError (ε : Type) where
  | packet (err : Error)
  | loaded (err : ε)
  | invalidOkPacket

/-- `PacketIO.ReadOK`: the returned `(*OKPacket, error)`, with `none` for the
index-out-of-range panic of `data[0]`, and the receiver afterwards. -/
def ReadOK {α ε : Type} (k : Codec α ε) (c : PacketIO) :
    Option (Except (ReplyError ε) α) × PacketIO :=
  match ReadPacket c with
  | (.error err, c1) => (some (.error (.packet err)), c1)
  | (.ok data, c1) =>
    match data[0]? with
    | none => (none, c1)
    | some tag =>
      if tag = k.OK_HEADER then
        (some (.ok (k.LoadOK data)), c1)
      else if tag = k.ERR_HEADER then
        (some (.error (.loaded (k.LoadError data))), c1)
      else
        (some (.error .invalidOkPacket), c1)

/-- `ReadPacket` with its recursion limited to `depth` nested calls: `none`
when a call beyond the limit would be needed. -/
def ReadPacketDepth : Nat → PacketIO → Option (Except Error (List Nat) × PacketIO)
  | 0, _ => none
  | depth + 1, c =>
    match ReadFull c.Conn 4 with
    | (none, conn) => some (.error .ErrBadConn, { c with Conn := conn })
    | (some header, conn) =>
      let length := headerLength header
      if length < 1 then
        some (.error (.invalidPayloadLength length), { c with Conn := conn })
      else
        let sequence := header.getD 3 0
        if sequence ≠ c.Sequence then
          some (.error (.invalidSequence sequence c.Sequence), { c with Conn := conn })
        else
          let c1 := incSequence { c with Conn := conn }
          match ReadFull c1.Conn length with
          | (none, conn2) => some (.error .ErrBadConn, { c1 with Conn := conn2 })
          | (some data, conn2) =>
            if length < MaxPayloadLen then
              some (.ok data, { c1 with Conn := conn2 })
            else
              match ReadPacketDepth depth { c1 with Conn := conn2 } with
              | none => none
              | some (.error _, c2) => some (.error .ErrBadConn, c2)
              | some (.ok buf, c2) => some (.ok (data ++ buf), c2)

/-! ## Basic facts -/

theorem MaxPayloadLen_eq : MaxPayloadLen = 16777215 := rfl

theorem headerLength_cons (b0 b1 b2 b3 : Nat) (t : List Nat) :
    headerLength (b0 :: b1 :: b2 :: b3 :: t)
      = b0 ||| (b1 <<< 8) % 2 ^ 32 ||| (b2 <<< 16) % 2 ^ 32 := by
  simp [headerLength]

theorem headerLength_full (b3 : Nat) (t : List Nat) :
    headerLength (0xff :: 0xff :: 0xff :: b3 :: t) = MaxPayloadLen := by
  rw [headerLength_cons, MaxPayloadLen_eq]
  decide

/-- Three bytes combined by `|` and `<<` give the little-endian value. -/
theorem or_shift_eq_add (b0 b1 b2 : Nat) (h0 : b0 < 256) (h1 : b1 < 256) (h2 : b2 < 256) :
    b0 ||| (b1 <<< 8) % 2 ^ 32 ||| (b2 <<< 16) % 2 ^ 32 = b0 + 256 * b1 + 65536 * b2 := by
  have e1 : (b1 <<< 8) % 2 ^ 32 = 2 ^ 8 * b1 := by
    rw [Nat.shiftLeft_eq, Nat.mod_eq_of_lt (by omega)]
    omega
  have e2 : (b2 <<< 16) % 2 ^ 32 = 2 ^ 16 * b2 := by
    rw [Nat.shiftLeft_eq, Nat.mod_eq_of_lt (by omega)]
    omega
  rw [e1, e2, Nat.or_comm b0, ← Nat.mul_add_lt_is_or (by omega : b0 < 2 ^ 8),
    Nat.or_comm, ← Nat.mul_add_lt_is_or (by omega : 2 ^ 8 * b1 + b0 < 2 ^ 16)]
  omega

theorem byte_natCast (n : Nat) : byte (n : Int) = n % 256 := by
  unfold byte
  omega

theorem byte_shiftRight (n k : Nat) : byte ((n : Int) >>> k) = (n >>> k) % 256 := by
  have e : ((n : Int) >>> k) = ((n >>> k : Nat) : Int) := by
    rw [Int.shiftRight_eq_div_pow, Nat.shiftRight_eq_div_pow]
    norm_cast
  rw [e, byte_natCast]

/-- Decoding the header `WritePacket` stores for a length below `2^24` gives
the length back. -/
theorem headerLength_encode (n b3 : Nat) (t : List Nat) (hn : n < 2 ^ 24) :
    headerLength (byte (n : Int) :: byte ((n : Int) >>> (8 : Nat)) ::
        byte ((n : Int) >>> (16 : Nat)) :: b3 :: t)
      = n := by
  rw [headerLength_cons, byte_natCast, byte_shiftRight, byte_shiftRight,
    or_shift_eq_add _ _ _ (Nat.mod_lt _ (by decide)) (Nat.mod_lt _ (by decide))
      (Nat.mod_lt _ (by decide)),
    Nat.shiftRight_eq_div_pow, Nat.shiftRight_eq_div_pow]
  omega

theorem ReadFull_append (a rest : List Nat) (o : List (Nat × Bool)) (w : List (List Nat)) :
    ReadFull ⟨a ++ rest, o, w⟩ a.length = (some a, ⟨rest, o, w⟩) := by
  simp [ReadFull]

theorem ReadFull_short (conn : Conn) (n : Nat) (h : conn.unread.length < n) :
    ReadFull conn n = (none, { conn with unread := [] }) := by
  simp [ReadFull, Nat.not_le.mpr h]

/-- One step of `ReadPacket` on a stream that holds at least a header. -/
theorem ReadPacket_header (h rest : List Nat) (o : List (Nat × Bool)) (w : List (List Nat))
    (s : Nat) (hh : h.length = 4) :
    ReadPacket ⟨⟨h ++ rest, o, w⟩, s⟩ =
      if headerLength h < 1 then
        (.error (.invalidPayloadLength (headerLength h)), ⟨⟨rest, o, w⟩, s⟩)
      else if h.getD 3 0 ≠ s then
        (.error (.invalidSequence (h.getD 3 0) s), ⟨⟨rest, o, w⟩, s⟩)
      else if rest.length < headerLength h then
        (.error .ErrBadConn, ⟨⟨[], o, w⟩, (s + 1) % 256⟩)
      else if headerLength h < MaxPayloadLen then
        (.ok (rest.take (headerLength h)), ⟨⟨rest.drop (headerLength h), o, w⟩, (s + 1) % 256⟩)
      else
        match ReadPacket ⟨⟨rest.drop (headerLength h), o, w⟩, (s + 1) % 256⟩ with
        | (.error _, c2) => (.error .ErrBadConn, c2)
        | (.ok buf, c2) => (.ok (rest.take (headerLength h) ++ buf), c2) := by
  have e1 : ReadFull ⟨h ++ rest, o, w⟩ 4 = (some h, ⟨rest, o, w⟩) := by
    rw [← hh]
    exact ReadFull_append h rest o w
  rw [ReadPacket]
  split
  · rename_i conn heq
    rw [e1] at heq
    cases heq
  · rename_i hd conn heq
    rw [e1] at heq
    cases heq
    simp only []
    split
    · rfl
    · split
      · rfl
      · split
        · rename_i conn2 heq2
          simp only [incSequence, ReadFull] at heq2
          split at heq2
          · cases heq2
          · cases heq2
            rename_i hlt
            rw [if_pos (show rest.length < headerLength h by omega)]
            simp only [incSequence]
        · rename_i data conn2 heq2
          simp only [incSequence, ReadFull] at heq2
          split at heq2
          · cases heq2
            rename_i hle
            rw [if_neg (show ¬ rest.length < headerLength h by omega)]
            simp only [incSequence]
          · cases heq2

theorem ReadPacket_header_short (c : PacketIO) (h : c.Conn.unread.length < 4) :
    ReadPacket c = (.error .ErrBadConn, { c with Conn := { c.Conn with unread := [] } }) := by
  have e1 := ReadFull_short c.Conn 4 h
  rw [ReadPacket]
  split
  · rename_i conn heq
    rw [e1] at heq
    cases heq
    rfl
  · rename_i hd conn heq
    rw [e1] at heq
    cases heq

/-- One step of `frameCounts` on a stream that holds at least a header. -/
theorem frameCounts_header (h rest : List Nat) (o : List (Nat × Bool)) (w : List (List Nat))
    (s : Nat) (hh : h.length = 4) :
    frameCounts ⟨⟨h ++ rest, o, w⟩, s⟩ =
      if headerLength h < 1 then (0, 0)
      else if h.getD 3 0 ≠ s then (0, 0)
      else if rest.length < headerLength h then (1, 0)
      else if headerLength h < MaxPayloadLen then (1, 1)
      else
        ((frameCounts ⟨⟨rest.drop (headerLength h), o, w⟩, (s + 1) % 256⟩).1 + 1,
          (frameCounts ⟨⟨rest.drop (headerLength h), o, w⟩, (s + 1) % 256⟩).2 + 1) := by
  have e1 : ReadFull ⟨h ++ rest, o, w⟩ 4 = (some h, ⟨rest, o, w⟩) := by
    rw [← hh]
    exact ReadFull_append h rest o w
  rw [frameCounts]
  split
  · rename_i conn heq
    rw [e1] at heq
    cases heq
  · rename_i hd conn heq
    rw [e1] at heq
    cases heq
    simp only []
    split
    · rfl
    · split
      · rfl
      · split
        · rename_i conn2 heq2
          simp only [ReadFull] at heq2
          split at heq2
          · cases heq2
          · cases heq2
            rename_i hlt
            rw [if_pos (show rest.length < headerLength h by omega)]
        · rename_i data conn2 heq2
          simp only [ReadFull] at heq2
          split at heq2
          · cases heq2
            rename_i hle
            rw [if_neg (show ¬ rest.length < headerLength h by omega)]
            simp only [incSequence]
          · cases heq2

theorem frameCounts_header_short (c : PacketIO) (h : c.Conn.unread.length < 4) :
    frameCounts c = (0, 0) := by
  have e1 := ReadFull_short c.Conn 4 h
  rw [frameCounts]
  split
  · rfl
  · rename_i hd conn heq
    rw [e1] at heq
    cases heq

theorem storeHeader_eq (data : List Nat) (b0 b1 b2 b3 : Nat) (h : 4 ≤ data.length) :
    storeHeader data b0 b1 b2 b3 = some (b0 :: b1 :: b2 :: b3 :: data.drop 4) := by
  match data, h with
  | x0 :: x1 :: x2 :: x3 :: t, _ =>
    simp [storeHeader, setIndex]

theorem storeHeader_none (data : List Nat) (b0 b1 b2 b3 : Nat) (h : data.length < 4) :
    storeHeader data b0 b1 b2 b3 = none := by
  match data, h with
  | [], _ => simp [storeHeader, setIndex]
  | [x0], _ => simp [storeHeader, setIndex]
  | [x0, x1], _ => simp [storeHeader, setIndex]
  | [x0, x1, x2], _ => simp [storeHeader, setIndex]

/-- The last frame: below `MaxPayloadLen` the loop is not entered. -/
theorem writeFrames_final (u : List Nat) (w : List (List Nat)) (s : Nat) (pre data : List Nat)
    (length : Int) (hl : length < MaxPayloadLen) (hd : 4 ≤ data.length) :
    writeFrames ⟨⟨u, [], w⟩, s⟩ pre data length =
      some ⟨none,
        ⟨⟨u, [], w ++ [byte length :: byte (length >>> (8 : Nat)) ::
            byte (length >>> (16 : Nat)) :: s :: data.drop 4]⟩, (s + 1) % 256⟩,
        pre ++ (byte length :: byte (length >>> (8 : Nat)) ::
            byte (length >>> (16 : Nat)) :: s :: data.drop 4)⟩ := by
  rw [writeFrames, dif_neg (by omega), storeHeader_eq _ _ _ _ _ hd]
  simp [Conn.Write, incSequence]

/-- One turn of the loop: a full-size frame is written and the window moves on. -/
theorem writeFrames_loop (u : List Nat) (w : List (List Nat)) (s : Nat) (pre data : List Nat)
    (length : Int) (hl : length ≥ MaxPayloadLen) (hd : 4 + MaxPayloadLen ≤ data.length) :
    writeFrames ⟨⟨u, [], w⟩, s⟩ pre data length =
      writeFrames
        ⟨⟨u, [], w ++ [0xff :: 0xff :: 0xff :: s :: (data.drop 4).take MaxPayloadLen]⟩,
          (s + 1) % 256⟩
        (pre ++ (0xff :: 0xff :: 0xff :: s :: data.drop 4).take MaxPayloadLen)
        ((0xff :: 0xff :: 0xff :: s :: data.drop 4).drop MaxPayloadLen)
        (length - MaxPayloadLen) := by
  have h4 : 4 ≤ data.length := by omega
  have e : (0xff :: 0xff :: 0xff :: s :: List.drop 4 data).length = data.length := by
    simp only [List.length_cons, List.length_drop]
    omega
  have et : List.take (4 + MaxPayloadLen) (0xff :: 0xff :: 0xff :: s :: List.drop 4 data)
      = 0xff :: 0xff :: 0xff :: s :: (data.drop 4).take MaxPayloadLen := by
    rw [show 4 + MaxPayloadLen = MaxPayloadLen + 1 + 1 + 1 + 1 by omega]
    simp only [List.take_succ_cons]
  have el : (0xff :: 0xff :: 0xff :: s :: List.take MaxPayloadLen (List.drop 4 data)).length
      = 4 + MaxPayloadLen := by
    simp only [List.length_cons, List.length_take, List.length_drop]
    omega
  rw [writeFrames, dif_pos hl, storeHeader_eq _ _ _ _ _ h4]
  simp only [sliceTo, sliceFrom, e, if_pos hd, Conn.Write, et, el,
    if_pos (show MaxPayloadLen ≤ data.length by omega), incSequence]
  simp

theorem MaxPayloadLen_pos : 0 < MaxPayloadLen := by
  rw [MaxPayloadLen_eq]
  omega

theorem and_FF (x : Nat) : x &&& 0xFF = x % 256 :=
  Nat.and_pow_two_sub_one_eq_mod x 8

/-- The wire format of a payload shorter than `MaxPayloadLen`: one frame. -/
theorem wireFrames_lt (s : Nat) (P : List Nat) (h : P.length < MaxPayloadLen) :
    wireFrames s P =
      [(P.length % 256) :: ((P.length >>> 8) % 256) :: ((P.length >>> 16) % 256) ::
        (s % 256) :: P] := by
  simp [wireFrames, Nat.div_eq_of_lt h, Nat.mod_eq_of_lt h, and_FF]

/-- The wire format of a payload of `MaxPayloadLen` bytes or more: a full-size
frame, then the wire format of the rest with the next counter value. -/
theorem wireFrames_ge (s : Nat) (P : List Nat) (h : MaxPayloadLen ≤ P.length) :
    wireFrames s P =
      (0xFF :: 0xFF :: 0xFF :: (s % 256) :: P.take MaxPayloadLen) ::
        wireFrames ((s + 1) % 256) (P.drop MaxPayloadLen) := by
  have hM : 0 < MaxPayloadLen := MaxPayloadLen_pos
  unfold wireFrames
  generalize MaxPayloadLen = M at *
  have hq : P.length / M = (P.length - M) / M + 1 := by
    rw [Nat.div_eq_sub_div hM h]
  have hr : P.length % M = (P.length - M) % M := by
    rw [Nat.mod_eq_sub_mod h]
  have hle : (P.length - M) % M ≤ P.length - M := Nat.mod_le _ _
  rw [hr, hq, List.range_succ_eq_map, List.map_cons, List.map_map, Nat.zero_mul, List.drop_zero,
    Nat.add_zero, List.cons_append]
  have F : ((fun i => 255 :: 255 :: 255 :: (s + i) % 256 ::
        List.take M (List.drop (i * M) P)) ∘ Nat.succ)
      = (fun i => 255 :: 255 :: 255 :: ((s + 1) % 256 + i) % 256 ::
        List.take M (List.drop (i * M) (List.drop M P))) := by
    funext i
    have A : (s + Nat.succ i) % 256 = ((s + 1) % 256 + i) % 256 := by omega
    have B : Nat.succ i * M = M + i * M := by
      rw [Nat.succ_mul]
      omega
    rw [Function.comp, A, B, List.drop_drop]
  have C : (s + ((P.length - M) / M + 1)) % 256 = ((s + 1) % 256 + (P.length - M) / M) % 256 := by
    omega
  have D : P.length - (P.length - M) % M = M + (P.length - M - (P.length - M) % M) := by
    omega
  rw [F, C, D, List.length_drop, List.drop_drop]

theorem drop_header (a b c d : Nat) (X : List Nat) (n : Nat) (h : 4 ≤ n) :
    (a :: b :: c :: d :: X).drop n = X.drop (n - 4) := by
  obtain ⟨k, rfl⟩ : ∃ k, n = k + 4 := ⟨n - 4, by omega⟩
  rw [List.drop_succ_cons, List.drop_succ_cons, List.drop_succ_cons, List.drop_succ_cons,
    Nat.add_sub_cancel]

/-- On a stream that accepts every write in full, the body of `WritePacket`
returns no error, hands the frames of the wire format to `Write` one by one
and advances the counter once per frame. -/
theorem writeFrames_accepting (q : Nat) :
    ∀ (u : List Nat) (w : List (List Nat)) (s : Nat) (pre data : List Nat),
      s < 256 → 4 ≤ data.length → (data.length - 4) / MaxPayloadLen = q →
      ∃ B, writeFrames ⟨⟨u, [], w⟩, s⟩ pre data ((data.length : Int) - 4) =
        some ⟨none, ⟨⟨u, [], w ++ wireFrames s (data.drop 4)⟩, (s + q + 1) % 256⟩, B⟩ := by
  induction q with
  | zero =>
    intro u w s pre data hs hd hq
    have hlt : data.length - 4 < MaxPayloadLen := by
      exact (Nat.div_eq_zero_iff MaxPayloadLen_pos).mp hq
    have hc : ((data.length : Int) - 4) = ((data.length - 4 : Nat) : Int) := by omega
    rw [writeFrames_final u w s pre data _ (by omega) hd, hc, byte_natCast, byte_shiftRight,
      byte_shiftRight, wireFrames_lt s _ (by rw [List.length_drop]; exact hlt),
      List.length_drop, Nat.mod_eq_of_lt hs, Nat.add_zero]
    exact ⟨_, rfl⟩
  | succ q ih =>
    intro u w s pre data hs hd hq
    have hM4 : 4 ≤ MaxPayloadLen := by
      rw [MaxPayloadLen_eq]
      omega
    have hge : MaxPayloadLen ≤ data.length - 4 := by
      by_contra hlt
      rw [Nat.div_eq_of_lt (by omega)] at hq
      omega
    have hq1 : (data.length - 4 - MaxPayloadLen) / MaxPayloadLen = q := by
      rw [Nat.div_eq_sub_div MaxPayloadLen_pos hge] at hq
      omega
    have hdrop : (0xff :: 0xff :: 0xff :: s :: data.drop 4).drop MaxPayloadLen
        = data.drop MaxPayloadLen := by
      have e : 4 + (MaxPayloadLen - 4) = MaxPayloadLen := by omega
      rw [drop_header _ _ _ _ _ _ hM4, List.drop_drop, e]
    have hlen : (data.drop MaxPayloadLen).length = data.length - MaxPayloadLen :=
      List.length_drop _ _
    have hc : ((data.length : Int) - 4 - MaxPayloadLen)
        = (((data.drop MaxPayloadLen).length : Nat) : Int) - 4 := by
      rw [hlen]
      omega
    have hq2 : data.length - MaxPayloadLen - 4 = data.length - 4 - MaxPayloadLen := by omega
    obtain ⟨B, hB⟩ := ih u
      (w ++ [0xff :: 0xff :: 0xff :: s :: (data.drop 4).take MaxPayloadLen]) ((s + 1) % 256)
      (pre ++ (0xff :: 0xff :: 0xff :: s :: data.drop 4).take MaxPayloadLen)
      (data.drop MaxPayloadLen) (Nat.mod_lt _ (by omega)) (by rw [hlen]; omega)
      (by rw [hlen, hq2]; exact hq1)
    refine ⟨B, ?_⟩
    rw [writeFrames_loop u w s pre data _ (by omega) (by omega), hdrop, hc, hB,
      wireFrames_ge s _ (by rw [List.length_drop]; exact hge), Nat.mod_eq_of_lt hs,
      List.drop_drop, List.drop_drop, List.append_assoc, List.singleton_append]
    have e1 : ((s + 1) % 256 + q + 1) % 256 = (s + (q + 1) + 1) % 256 := by omega
    have e2 : MaxPayloadLen + 4 = 4 + MaxPayloadLen := Nat.add_comm _ _
    rw [e1, e2]

/-- One step of `ReadPacket` on a stream that starts with a complete frame
whose header is accepted. -/
theorem ReadPacket_frame (h D rest : List Nat) (o : List (Nat × Bool)) (w : List (List Nat))
    (s : Nat) (hh : h.length = 4) (hl : headerLength h = D.length) (h1 : 1 ≤ D.length)
    (hs : h.getD 3 0 = s) :
    ReadPacket ⟨⟨h ++ (D ++ rest), o, w⟩, s⟩ =
      if D.length < MaxPayloadLen then
        (.ok D, ⟨⟨rest, o, w⟩, (s + 1) % 256⟩)
      else
        match ReadPacket ⟨⟨rest, o, w⟩, (s + 1) % 256⟩ with
        | (.error _, c2) => (.error .ErrBadConn, c2)
        | (.ok buf, c2) => (.ok (D ++ buf), c2) := by
  rw [ReadPacket_header h _ o w s hh, hl, if_neg (by omega), if_neg (not_not.mpr hs),
    if_neg (by simp), List.take_left, List.drop_left]

/-- A full-size frame followed by the frames of a successful read. -/
theorem ReadPacket_full_frame (h D rest : List Nat) (o : List (Nat × Bool))
    (w : List (List Nat)) (s : Nat) (hh : h.length = 4) (hl : headerLength h = MaxPayloadLen)
    (hD : D.length = MaxPayloadLen) (hs : h.getD 3 0 = s) (buf : List Nat) (c2 : PacketIO)
    (hrest : ReadPacket ⟨⟨rest, o, w⟩, (s + 1) % 256⟩ = (.ok buf, c2)) :
    ReadPacket ⟨⟨h ++ (D ++ rest), o, w⟩, s⟩ = (.ok (D ++ buf), c2) := by
  rw [ReadPacket_frame h D rest o w s hh (by rw [hl, hD]) (by rw [hD]; exact MaxPayloadLen_pos) hs,
    if_neg (by omega), hrest]

/-- A full-size frame followed by a read that fails: the error becomes
`ErrBadConn`. -/
theorem ReadPacket_full_frame_error (h D rest : List Nat) (o : List (Nat × Bool))
    (w : List (List Nat)) (s : Nat) (hh : h.length = 4) (hl : headerLength h = MaxPayloadLen)
    (hD : D.length = MaxPayloadLen) (hs : h.getD 3 0 = s) (e : Error) (c2 : PacketIO)
    (hrest : ReadPacket ⟨⟨rest, o, w⟩, (s + 1) % 256⟩ = (.error e, c2)) :
    ReadPacket ⟨⟨h ++ (D ++ rest), o, w⟩, s⟩ = (.error .ErrBadConn, c2) := by
  rw [ReadPacket_frame h D rest o w s hh (by rw [hl, hD]) (by rw [hD]; exact MaxPayloadLen_pos) hs,
    if_neg (by omega), hrest]

/-- A header that declares length 0 is rejected, wherever it stands. -/
theorem ReadPacket_zero_header (h rest : List Nat) (o : List (Nat × Bool))
    (w : List (List Nat)) (s : Nat) (hh : h.length = 4) (hl : headerLength h = 0) :
    ReadPacket ⟨⟨h ++ rest, o, w⟩, s⟩ = (.error (.invalidPayloadLength 0), ⟨⟨rest, o, w⟩, s⟩) := by
  rw [ReadPacket_header h _ o w s hh, hl, if_pos (by omega)]

/-- `WritePacket` on a buffer of 4 reserved bytes and a payload, on a stream
that accepts every write in full. -/
theorem WritePacket_accepting (u : List Nat) (w : List (List Nat)) (s h0 h1 h2 h3 : Nat)
    (P : List Nat) (hs : s < 256) :
    ∃ B, WritePacket ⟨⟨u, [], w⟩, s⟩ (h0 :: h1 :: h2 :: h3 :: P) =
      some ⟨none, ⟨⟨u, [], w ++ wireFrames s P⟩, (s + P.length / MaxPayloadLen + 1) % 256⟩, B⟩ := by
  have hlen : (h0 :: h1 :: h2 :: h3 :: P).length - 4 = P.length := by
    simp only [List.length_cons]
    omega
  obtain ⟨B, hB⟩ := writeFrames_accepting (P.length / MaxPayloadLen) u w s []
    (h0 :: h1 :: h2 :: h3 :: P) hs (by simp only [List.length_cons]; omega) (by rw [hlen])
  refine ⟨B, ?_⟩
  rw [WritePacket, hB]
  rfl

theorem declaredLength_cons (b0 b1 b2 b3 : Nat) (t : List Nat) :
    declaredLength (b0 :: b1 :: b2 :: b3 :: t) = headerLength [b0, b1, b2, b3] := rfl

/-- The lengths the frames of the wire format declare. -/
theorem declaredLength_wireFrames (s : Nat) (P : List Nat) :
    (wireFrames s P).map declaredLength =
      List.replicate (P.length / MaxPayloadLen) MaxPayloadLen ++ [P.length % MaxPayloadLen] := by
  have hr : P.length % MaxPayloadLen < 2 ^ 24 := by
    have := Nat.mod_lt P.length MaxPayloadLen_pos
    rw [MaxPayloadLen_eq] at this ⊢
    omega
  have hlast : declaredLength
      (((P.length % MaxPayloadLen) &&& 0xFF) ::
        (((P.length % MaxPayloadLen) >>> 8) &&& 0xFF) ::
        (((P.length % MaxPayloadLen) >>> 16) &&& 0xFF) ::
        (s + P.length / MaxPayloadLen) % 256 ::
        P.drop (P.length - P.length % MaxPayloadLen)) = P.length % MaxPayloadLen := by
    generalize P.length % MaxPayloadLen = r at hr
    rw [declaredLength_cons, headerLength_cons, and_FF, and_FF, and_FF,
      or_shift_eq_add _ _ _ (Nat.mod_lt _ (by decide)) (Nat.mod_lt _ (by decide))
        (Nat.mod_lt _ (by decide)),
      Nat.shiftRight_eq_div_pow, Nat.shiftRight_eq_div_pow]
    omega
  have hfull : (declaredLength ∘ fun i => 0xFF :: 0xFF :: 0xFF :: (s + i) % 256 ::
      (P.drop (i * MaxPayloadLen)).take MaxPayloadLen) = fun _ => MaxPayloadLen := by
    funext i
    rw [Function.comp, declaredLength_cons, headerLength_full]
  rw [wireFrames, List.map_append, List.map_map, hfull, List.map_const', List.length_range,
    List.map_singleton, hlast]

/-! ## The claims about `WritePacket` -/

/-- C2. Wire format of `WritePacket`: for a buffer of 4 reserved bytes and a
payload `P`, a counter value `s` and a stream that accepts every write in
full, `WritePacket` returns no error and the frames it hands to `Write` are,
in order, those of `wireFrames s P`: for `i < q` the header
`FF FF FF ((s+i) mod 256)` and `P[i*MaxPayloadLen .. (i+1)*MaxPayloadLen)`,
then the header `[r & 0xFF, (r>>8) & 0xFF, (r>>16) & 0xFF, (s+q) mod 256]` and
the last `r` bytes of `P` (second conjunct: so are the bytes on the wire).
Third conjunct: `MaxPayloadLen + 1` bytes of `0xAB` with `s = 0` give
`FF FF FF 00` with `MaxPayloadLen` bytes of `0xAB`, then `01 00 00 01 AB`. -/
theorem WritePacket_wire_format (u : List Nat) (w : List (List Nat)) (s h0 h1 h2 h3 : Nat)
    (P : List Nat) (hs : s < 256) :
    (∃ r, WritePacket ⟨⟨u, [], w⟩, s⟩ (h0 :: h1 :: h2 :: h3 :: P) = some r ∧ r.err = none ∧
        r.c.Conn.written = w ++ wireFrames s P ∧
        r.c.Conn.written.flatten = w.flatten ++ (wireFrames s P).flatten) ∧
    (∃ r, WritePacket ⟨⟨u, [], []⟩, 0⟩
          (h0 :: h1 :: h2 :: h3 :: List.replicate (MaxPayloadLen + 1) 0xAB) = some r ∧
        r.err = none ∧
        r.c.Conn.written =
          [0xFF :: 0xFF :: 0xFF :: 0x00 :: List.replicate MaxPayloadLen 0xAB,
            [0x01, 0x00, 0x00, 0x01, 0xAB]]) := by
  constructor
  · obtain ⟨B, hB⟩ := WritePacket_accepting u w s h0 h1 h2 h3 P hs
    exact ⟨_, hB, rfl, rfl, List.flatten_append _ _⟩
  · obtain ⟨B, hB⟩ := WritePacket_accepting u [] 0 h0 h1 h2 h3
      (List.replicate (MaxPayloadLen + 1) 0xAB) (by decide)
    refine ⟨_, hB, rfl, ?_⟩
    have e1 : min MaxPayloadLen (MaxPayloadLen + 1) = MaxPayloadLen := by omega
    have e2 : MaxPayloadLen + 1 - MaxPayloadLen = 1 := by omega
    have e3 : List.replicate 1 0xAB = [0xAB] := rfl
    have e4 : ([0xAB] : List Nat).length < MaxPayloadLen := by
      rw [MaxPayloadLen_eq]
      decide
    show [] ++ wireFrames 0 (List.replicate (MaxPayloadLen + 1) 0xAB) = _
    rw [List.nil_append, wireFrames_ge 0 _ (by rw [List.length_replicate]; omega),
      List.take_replicate, List.drop_replicate, e1, e2, e3, wireFrames_lt _ _ e4]
    rfl

/-- The sizes of the frames of the wire format: 4 header bytes and
`MaxPayloadLen` payload bytes for every frame but the last, 4 header bytes and
`len(P) mod MaxPayloadLen` payload bytes for the last. -/
theorem length_wireFrames (s : Nat) (P : List Nat) :
    (wireFrames s P).map List.length =
      List.replicate (P.length / MaxPayloadLen) (4 + MaxPayloadLen)
        ++ [4 + P.length % MaxPayloadLen] := by
  have hfull : ∀ i ∈ List.range (P.length / MaxPayloadLen),
      (List.length ∘ fun i => 0xFF :: 0xFF :: 0xFF :: (s + i) % 256 ::
        (P.drop (i * MaxPayloadLen)).take MaxPayloadLen) i
      = (fun _ => 4 + MaxPayloadLen) i := by
    intro i hi
    have hi2 : i < P.length / MaxPayloadLen := List.mem_range.mp hi
    have hle : i * MaxPayloadLen + MaxPayloadLen ≤ P.length := by
      have h1 : (i + 1) * MaxPayloadLen ≤ P.length / MaxPayloadLen * MaxPayloadLen :=
        Nat.mul_le_mul_right _ hi2
      have h2 := Nat.div_mul_le_self P.length MaxPayloadLen
      rw [Nat.succ_mul] at h1
      omega
    show (0xFF :: 0xFF :: 0xFF :: (s + i) % 256 ::
      (P.drop (i * MaxPayloadLen)).take MaxPayloadLen).length = 4 + MaxPayloadLen
    rw [List.length_cons, List.length_cons, List.length_cons, List.length_cons,
      List.length_take, List.length_drop]
    omega
  have hlast : (((P.length % MaxPayloadLen) &&& 0xFF) ::
      (((P.length % MaxPayloadLen) >>> 8) &&& 0xFF) ::
      (((P.length % MaxPayloadLen) >>> 16) &&& 0xFF) ::
      (s + P.length / MaxPayloadLen) % 256 ::
      P.drop (P.length - P.length % MaxPayloadLen)).length = 4 + P.length % MaxPayloadLen := by
    have hr : P.length % MaxPayloadLen ≤ P.length := Nat.mod_le _ _
    rw [List.length_cons, List.length_cons, List.length_cons, List.length_cons,
      List.length_drop]
    omega
  rw [wireFrames, List.map_append, List.map_map, List.map_congr_left hfull, List.map_const',
    List.length_range, List.map_singleton, hlast]

/-- Every frame of the wire format has 4 header bytes and as many payload
bytes as its header declares. -/
theorem length_eq_declaredLength_wireFrames (s : Nat) (P : List Nat) :
    ∀ f ∈ wireFrames s P, f.length = 4 + declaredLength f := by
  have h1 := length_wireFrames s P
  have h2 := declaredLength_wireFrames s P
  have h3 : (wireFrames s P).map List.length
      = (wireFrames s P).map (fun f => 4 + declaredLength f) := by
    have h4 : (wireFrames s P).map (fun f => 4 + declaredLength f)
        = ((wireFrames s P).map declaredLength).map (fun n => 4 + n) := by
      rw [List.map_map]
      rfl
    rw [h1, h4, h2, List.map_append, List.map_replicate, List.map_singleton]
  exact List.map_inj_left.mp h3

/-- C3. Boundary splitting: on a stream that accepts every write in full,
`WritePacket` on a payload of length `L` hands to `Write` exactly
`L / MaxPayloadLen + 1 = ceil((L+1) / MaxPayloadLen)` frames, every frame but
the last declaring length `MaxPayloadLen` and the last declaring
`L mod MaxPayloadLen < MaxPayloadLen`; a payload of exactly `MaxPayloadLen`
bytes gives two frames (lengths `MaxPayloadLen` and 0), one of
`MaxPayloadLen - 1` bytes one frame, and an empty payload one frame of
length 0. The frames are those of the wire format, and each has 4 header bytes
and exactly as many payload bytes as its header declares: `4 + MaxPayloadLen`
bytes for every frame but the last, `4 + L mod MaxPayloadLen` for the last. -/
theorem WritePacket_boundary_splitting (u : List Nat) (w : List (List Nat))
    (s h0 h1 h2 h3 : Nat) (P : List Nat) (hs : s < 256) :
    ∃ r frames, WritePacket ⟨⟨u, [], w⟩, s⟩ (h0 :: h1 :: h2 :: h3 :: P) = some r ∧
      r.err = none ∧ r.c.Conn.written = w ++ frames ∧
      frames.length = P.length / MaxPayloadLen + 1 ∧
      P.length / MaxPayloadLen + 1 = (P.length + 1 + (MaxPayloadLen - 1)) / MaxPayloadLen ∧
      frames.map declaredLength =
        List.replicate (P.length / MaxPayloadLen) MaxPayloadLen ++ [P.length % MaxPayloadLen] ∧
      P.length % MaxPayloadLen < MaxPayloadLen ∧
      (P.length = MaxPayloadLen → frames.map declaredLength = [MaxPayloadLen, 0]) ∧
      (P.length = MaxPayloadLen - 1 → frames.map declaredLength = [MaxPayloadLen - 1]) ∧
      (P = [] → frames.map declaredLength = [0]) ∧
      frames = wireFrames s P ∧
      (∀ f ∈ frames, f.length = 4 + declaredLength f) ∧
      frames.map List.length =
        List.replicate (P.length / MaxPayloadLen) (4 + MaxPayloadLen)
          ++ [4 + P.length % MaxPayloadLen] ∧
      (P.length = MaxPayloadLen → frames.map List.length = [4 + MaxPayloadLen, 4]) ∧
      (P.length = MaxPayloadLen - 1 → frames.map List.length = [4 + (MaxPayloadLen - 1)]) ∧
      (P = [] → frames.map List.length = [4]) := by
  obtain ⟨B, hB⟩ := WritePacket_accepting u w s h0 h1 h2 h3 P hs
  have hmap := declaredLength_wireFrames s P
  have hsize := length_wireFrames s P
  have hM := MaxPayloadLen_pos
  have hlen : (wireFrames s P).length = P.length / MaxPayloadLen + 1 := by
    have := congrArg List.length hmap
    rw [List.length_map, List.length_append, List.length_replicate, List.length_singleton] at this
    exact this
  refine ⟨_, wireFrames s P, hB, rfl, rfl, hlen, ?_, hmap, Nat.mod_lt _ hM, ?_, ?_, ?_, rfl,
    length_eq_declaredLength_wireFrames s P, hsize, ?_, ?_, ?_⟩
  · rw [show P.length + 1 + (MaxPayloadLen - 1) = P.length + MaxPayloadLen by omega,
      Nat.add_div_right _ hM]
  · intro h
    rw [hmap, h, Nat.div_self hM, Nat.mod_self]
    rfl
  · intro h
    rw [hmap, h, Nat.div_eq_of_lt (by omega), Nat.mod_eq_of_lt (by omega)]
    rfl
  · intro h
    rw [hmap, h, List.length_nil, Nat.zero_div, Nat.zero_mod]
    rfl
  · intro h
    rw [hsize, h, Nat.div_self hM, Nat.mod_self]
    rfl
  · intro h
    rw [hsize, h, Nat.div_eq_of_lt (by omega), Nat.mod_eq_of_lt (by omega)]
    rfl
  · intro h
    rw [hsize, h, List.length_nil, Nat.zero_div, Nat.zero_mod]
    rfl

/-- C6. Sequence after a write: for a counter value `s` and a buffer with a
payload of length `L`, a `WritePacket` call in which every write is accepted in
full returns no error and leaves `Sequence = (s + L / MaxPayloadLen + 1) mod
256`, one step modulo 256 per frame written; from 255 the counter goes to 0
without an error. -/
theorem WritePacket_sequence (u : List Nat) (w : List (List Nat)) (s h0 h1 h2 h3 : Nat)
    (P : List Nat) (hs : s < 256) :
    ∃ r, WritePacket ⟨⟨u, [], w⟩, s⟩ (h0 :: h1 :: h2 :: h3 :: P) = some r ∧ r.err = none ∧
      r.c.Sequence = (s + P.length / MaxPayloadLen + 1) % 256 ∧
      r.c.Conn.written.length = w.length + (P.length / MaxPayloadLen + 1) ∧
      (s + P.length / MaxPayloadLen = 255 → r.c.Sequence = 0) := by
  obtain ⟨B, hB⟩ := WritePacket_accepting u w s h0 h1 h2 h3 P hs
  have hlen : (wireFrames s P).length = P.length / MaxPayloadLen + 1 := by
    have := congrArg List.length (declaredLength_wireFrames s P)
    rw [List.length_map, List.length_append, List.length_replicate, List.length_singleton] at this
    exact this
  refine ⟨_, hB, rfl, rfl, ?_, ?_⟩
  · show (w ++ wireFrames s P).length = _
    rw [List.length_append, hlen]
  · intro h
    show (s + P.length / MaxPayloadLen + 1) % 256 = 0
    rw [h]

theorem WritePacket_wire_format_witness :
    ∃ r, WritePacket ⟨⟨[], [], []⟩, 7⟩ [0, 0, 0, 0, 1, 2] = some r ∧ r.err = none ∧
      r.c.Conn.written = [[2, 0, 0, 7, 1, 2]] := by
  obtain ⟨r, h1, h2, h3, _⟩ := (WritePacket_wire_format [] [] 7 0 0 0 0 [1, 2] (by decide)).1
  refine ⟨r, h1, h2, ?_⟩
  rw [h3]
  decide

theorem WritePacket_boundary_splitting_witness :
    ∃ r frames, WritePacket ⟨⟨[], [], []⟩, 255⟩ [9, 9, 9, 9, 1, 2, 3] = some r ∧
      r.c.Conn.written = [] ++ frames ∧ frames.length = 1 ∧ frames.map declaredLength = [3] ∧
      frames.map List.length = [7] := by
  obtain ⟨r, frames, h1, _, h3, h4, _, h6, _, _, _, _, _, _, h13, _⟩ :=
    WritePacket_boundary_splitting [] [] 255 9 9 9 9 [1, 2, 3] (by decide)
  exact ⟨r, frames, h1, h3, h4, h6, h13⟩

theorem WritePacket_sequence_witness :
    ∃ r, WritePacket ⟨⟨[], [], []⟩, 255⟩ [9, 9, 9, 9, 1, 2, 3] = some r ∧ r.err = none ∧
      r.c.Sequence = 0 := by
  obtain ⟨r, h1, h2, h3, _⟩ := WritePacket_sequence [] [] 255 9 9 9 9 [1, 2, 3] (by decide)
  exact ⟨r, h1, h2, h3⟩

/-! ## The claims about `ReadPacket` -/

/-- Reading `fs.length` full-size frames and then whatever `ReadPacket` makes
of the rest: a successful rest is appended to the payloads of the frames. -/
theorem ReadPacket_full_frames (fs : List (List Nat × List Nat)) :
    ∀ (s : Nat) (rest : List Nat) (o : List (Nat × Bool)) (w : List (List Nat))
      (buf : List Nat) (c2 : PacketIO),
      (∀ (i : Nat) (hi : i < fs.length), fs[i].1.length = 4 ∧
        headerLength fs[i].1 = MaxPayloadLen ∧ fs[i].2.length = MaxPayloadLen ∧
        fs[i].1.getD 3 0 = (s + i) % 256) →
      s < 256 →
      ReadPacket ⟨⟨rest, o, w⟩, (s + fs.length) % 256⟩ = (.ok buf, c2) →
      ReadPacket ⟨⟨(fs.map fun f => f.1 ++ f.2).flatten ++ rest, o, w⟩, s⟩ =
        (.ok ((fs.map Prod.snd).flatten ++ buf), c2) := by
  induction fs with
  | nil =>
    intro s rest o w buf c2 _ hs hrest
    rw [List.length_nil, Nat.add_zero, Nat.mod_eq_of_lt hs] at hrest
    exact hrest
  | cons f fs ih =>
    intro s rest o w buf c2 hfs hs hrest
    obtain ⟨h1, h2, h3, h4⟩ := hfs 0 (Nat.succ_pos _)
    rw [List.getElem_cons_zero] at h1 h2 h3 h4
    rw [Nat.add_zero, Nat.mod_eq_of_lt hs] at h4
    have htail : ∀ (i : Nat) (hi : i < fs.length), fs[i].1.length = 4 ∧
        headerLength fs[i].1 = MaxPayloadLen ∧ fs[i].2.length = MaxPayloadLen ∧
        fs[i].1.getD 3 0 = ((s + 1) % 256 + i) % 256 := by
      intro i hi
      obtain ⟨g1, g2, g3, g4⟩ := hfs (i + 1) (Nat.succ_lt_succ hi)
      rw [List.getElem_cons_succ] at g1 g2 g3 g4
      refine ⟨g1, g2, g3, ?_⟩
      rw [g4]
      omega
    have hrest1 : ReadPacket ⟨⟨rest, o, w⟩, ((s + 1) % 256 + fs.length) % 256⟩ = (.ok buf, c2) := by
      rw [← hrest]
      congr 2
      rw [List.length_cons]
      omega
    have hih := ih ((s + 1) % 256) rest o w buf c2 htail (Nat.mod_lt _ (by decide)) hrest1
    rw [List.map_cons, List.flatten_cons, List.map_cons, List.flatten_cons, List.append_assoc,
      List.append_assoc, List.append_assoc]
    exact ReadPacket_full_frame f.1 f.2 _ o w s h1 h2 h3 h4 _ c2 hih

/-- C4. Reassembly by `ReadPacket`: for a counter value `s` and an input that
starts with `k` frames of declared length `MaxPayloadLen` (`fs`, as pairs of
header and payload) followed by one frame of declared length `L` with
`0 < L < MaxPayloadLen` (header `h`, payload `D`), all with complete payloads
and with sequence bytes `s, s+1, ..., s+k` modulo 256, `ReadPacket` with
`Sequence = s` succeeds, returns the `k+1` payloads concatenated in wire order,
leaves unread exactly what follows the frames (`rest`) and leaves
`Sequence = (s + k + 1) mod 256`. -/
theorem ReadPacket_reassembly (s : Nat) (fs : List (List Nat × List Nat)) (h D rest : List Nat)
    (o : List (Nat × Bool)) (w : List (List Nat)) (hs : s < 256)
    (hfs : ∀ (i : Nat) (hi : i < fs.length), fs[i].1.length = 4 ∧
      headerLength fs[i].1 = MaxPayloadLen ∧ fs[i].2.length = MaxPayloadLen ∧
      fs[i].1.getD 3 0 = (s + i) % 256)
    (hh : h.length = 4) (hl : headerLength h = D.length) (h0 : 0 < D.length)
    (hlt : D.length < MaxPayloadLen) (hseq : h.getD 3 0 = (s + fs.length) % 256) :
    ReadPacket ⟨⟨(fs.map fun f => f.1 ++ f.2).flatten ++ (h ++ D ++ rest), o, w⟩, s⟩ =
      (.ok ((fs.map Prod.snd).flatten ++ D), ⟨⟨rest, o, w⟩, (s + fs.length + 1) % 256⟩) := by
  have hlast : ReadPacket ⟨⟨h ++ D ++ rest, o, w⟩, (s + fs.length) % 256⟩ =
      (.ok D, ⟨⟨rest, o, w⟩, (s + fs.length + 1) % 256⟩) := by
    rw [List.append_assoc, ReadPacket_frame h D rest o w _ hh hl h0 hseq, if_pos hlt]
    congr 2
    omega
  exact ReadPacket_full_frames fs s _ o w D _ hfs hs hlast

theorem ReadPacket_reassembly_witness :
    ReadPacket ⟨⟨([([255, 255, 255, 7], List.replicate MaxPayloadLen 0)].map
        fun f => f.1 ++ f.2).flatten ++ ([2, 0, 0, 8] ++ [1, 2] ++ [9]), [], []⟩, 7⟩ =
      (.ok (([([255, 255, 255, 7], List.replicate MaxPayloadLen 0)].map Prod.snd).flatten
        ++ [1, 2]), ⟨⟨[9], [], []⟩, 9⟩) :=
  ReadPacket_reassembly 7 [([255, 255, 255, 7], List.replicate MaxPayloadLen 0)] [2, 0, 0, 8]
    [1, 2] [9] [] [] (by decide)
    (by
      intro i hi
      have hi0 : i = 0 := by
        rw [List.length_singleton] at hi
        omega
      subst hi0
      exact ⟨rfl, headerLength_full 7 [], List.length_replicate _ _, rfl⟩)
    rfl (by decide) (by decide) (by rw [MaxPayloadLen_eq]; decide) rfl

/-- C5. Zero-length terminator: on the stream made of a frame of declared
length `MaxPayloadLen` with sequence byte 0 and a complete payload, followed by
a frame of declared length 0 with sequence byte 1, `ReadPacket` with
`Sequence = 0` does not return the payload: the second header is rejected for
its length and the call returns `ErrBadConn`, with `Sequence = 1`. -/
theorem ReadPacket_zero_terminator_rejected :
    ReadPacket ⟨⟨[0xff, 0xff, 0xff, 0] ++ (List.replicate MaxPayloadLen 0xAB ++ [0, 0, 0, 1]),
        [], []⟩, 0⟩ =
      (.error .ErrBadConn, ⟨⟨[], [], []⟩, 1⟩) :=
  ReadPacket_full_frame_error [0xff, 0xff, 0xff, 0] (List.replicate MaxPayloadLen 0xAB)
    [0, 0, 0, 1] [] [] 0 rfl (headerLength_full 0 []) (List.length_replicate _ _) rfl
    (.invalidPayloadLength 0) ⟨⟨[], [], []⟩, 1⟩
    (ReadPacket_zero_header [0, 0, 0, 1] [] [] [] 1 rfl (by decide))

/-- C8. Sequence mismatch: when the first header of the input declares a length
other than 0 and carries a sequence byte other than the counter `s`,
`ReadPacket` returns the `invalid sequence` error (not `ErrBadConn`), no
payload, and `Sequence` is still `s`. -/
theorem ReadPacket_sequence_mismatch (h rest : List Nat) (o : List (Nat × Bool))
    (w : List (List Nat)) (s : Nat) (hh : h.length = 4) (hl : headerLength h ≠ 0)
    (hseq : h.getD 3 0 ≠ s) :
    ReadPacket ⟨⟨h ++ rest, o, w⟩, s⟩ =
        (.error (.invalidSequence (h.getD 3 0) s), ⟨⟨rest, o, w⟩, s⟩) ∧
      Error.invalidSequence (h.getD 3 0) s ≠ Error.ErrBadConn ∧
      (ReadPacket ⟨⟨h ++ rest, o, w⟩, s⟩).2.Sequence = s := by
  have e : ReadPacket ⟨⟨h ++ rest, o, w⟩, s⟩ =
      (.error (.invalidSequence (h.getD 3 0) s), ⟨⟨rest, o, w⟩, s⟩) := by
    rw [ReadPacket_header h rest o w s hh, if_neg (by omega), if_pos hseq]
  refine ⟨e, ?_, ?_⟩
  · intro hne
    cases hne
  · rw [e]

theorem ReadPacket_sequence_mismatch_witness :
    ReadPacket ⟨⟨[3, 0, 0, 5] ++ [1, 2, 3], [], []⟩, 4⟩ =
      (.error (.invalidSequence 5 4), ⟨⟨[1, 2, 3], [], []⟩, 4⟩) :=
  (ReadPacket_sequence_mismatch [3, 0, 0, 5] [1, 2, 3] [] [] 4 rfl (by decide) (by decide)).1

/-- C9. Zero-length first frame: when the first three bytes of the input are
zero, whatever the sequence byte `b3` and the counter `s`, `ReadPacket` returns
the `invalid payload length` error (neither `ErrBadConn` nor the `invalid
sequence` error), no payload, and leaves `Sequence = s`. -/
theorem ReadPacket_zero_length_first (b3 s : Nat) (rest : List Nat) (o : List (Nat × Bool))
    (w : List (List Nat)) :
    ReadPacket ⟨⟨0 :: 0 :: 0 :: b3 :: rest, o, w⟩, s⟩ =
        (.error (.invalidPayloadLength 0), ⟨⟨rest, o, w⟩, s⟩) ∧
      Error.invalidPayloadLength 0 ≠ Error.ErrBadConn ∧
      (∀ a b, Error.invalidPayloadLength 0 ≠ Error.invalidSequence a b) := by
  refine ⟨ReadPacket_zero_header [0, 0, 0, b3] rest o w s rfl ?_, ?_, ?_⟩
  · rw [headerLength_cons]
    decide
  · intro hne
    cases hne
  · intro a b hne
    cases hne

/-- C10. Short read: when the input ends before the 4 header bytes are
complete, and when it ends after a header with a length other than 0 and the
matching sequence byte but before the declared number of payload bytes is
complete, `ReadPacket` returns `ErrBadConn` and no payload. `ReadPacket` is a
total function, and the header a successful `ReadFull` of 4 bytes delivers has
4 bytes, so that `header[0]` to `header[3]` are in range. -/
theorem ReadPacket_short_read :
    (∀ c : PacketIO, c.Conn.unread.length < 4 →
      ReadPacket c = (.error .ErrBadConn, { c with Conn := { c.Conn with unread := [] } })) ∧
    (∀ (h rest : List Nat) (o : List (Nat × Bool)) (w : List (List Nat)) (s : Nat),
      h.length = 4 → headerLength h ≠ 0 → h.getD 3 0 = s → rest.length < headerLength h →
      ReadPacket ⟨⟨h ++ rest, o, w⟩, s⟩ = (.error .ErrBadConn, ⟨⟨[], o, w⟩, (s + 1) % 256⟩)) ∧
    (∀ (conn conn1 : Conn) (header : List Nat),
      ReadFull conn 4 = (some header, conn1) → header.length = 4) := by
  refine ⟨ReadPacket_header_short, ?_, ?_⟩
  · intro h rest o w s hh hl hseq hshort
    rw [ReadPacket_header h rest o w s hh, if_neg (by omega), if_neg (not_not.mpr hseq),
      if_pos hshort]
  · intro conn conn1 header hrd
    unfold ReadFull at hrd
    split at hrd
    · rename_i hle
      cases hrd
      rw [List.length_take]
      omega
    · cases hrd

theorem ReadPacket_short_read_witness :
    ReadPacket ⟨⟨[5, 0], [], []⟩, 3⟩ = (.error .ErrBadConn, ⟨⟨[], [], []⟩, 3⟩) ∧
    ReadPacket ⟨⟨[5, 0, 0, 3] ++ [1, 2], [], []⟩, 3⟩ =
      (.error .ErrBadConn, ⟨⟨[], [], []⟩, 4⟩) :=
  ⟨ReadPacket_short_read.1 ⟨⟨[5, 0], [], []⟩, 3⟩ (by decide),
    ReadPacket_short_read.2.1 [5, 0, 0, 3] [1, 2] [] [] 3 rfl (by decide) rfl (by decide)⟩

/-- C7, as the claim states it, fails: on an input whose first frame declares 5
payload bytes and delivers 2, `ReadPacket` fails with `ErrBadConn`, no frame
has been read completely, and `Sequence` has gone from 0 to 1. -/
theorem ReadPacket_sequence_counts_cut_frame :
    ReadPacket ⟨⟨[5, 0, 0, 0, 1, 2], [], []⟩, 0⟩ = (.error .ErrBadConn, ⟨⟨[], [], []⟩, 1⟩) ∧
    (frameCounts ⟨⟨[5, 0, 0, 0, 1, 2], [], []⟩, 0⟩).2 = 0 ∧
    (ReadPacket ⟨⟨[5, 0, 0, 0, 1, 2], [], []⟩, 0⟩).2.Sequence ≠
      (0 + (frameCounts ⟨⟨[5, 0, 0, 0, 1, 2], [], []⟩, 0⟩).2) % 256 := by
  have e1 : ReadPacket ⟨⟨[5, 0, 0, 0] ++ [1, 2], [], []⟩, 0⟩ =
      (.error .ErrBadConn, ⟨⟨[], [], []⟩, 1⟩) := by
    rw [ReadPacket_header [5, 0, 0, 0] [1, 2] [] [] 0 rfl, if_neg (by decide),
      if_neg (by decide), if_pos (by decide)]
  have e2 : frameCounts ⟨⟨[5, 0, 0, 0] ++ [1, 2], [], []⟩, 0⟩ = (1, 0) := by
    rw [frameCounts_header [5, 0, 0, 0] [1, 2] [] [] 0 rfl, if_neg (by decide),
      if_neg (by decide), if_pos (by decide)]
  refine ⟨e1, ?_, ?_⟩
  · exact congrArg Prod.snd e2
  · have h1 : (ReadPacket ⟨⟨[5, 0, 0, 0, 1, 2], [], []⟩, 0⟩).2.Sequence = 1 :=
      congrArg (fun r => r.2.Sequence) e1
    have h2 : (frameCounts ⟨⟨[5, 0, 0, 0, 1, 2], [], []⟩, 0⟩).2 = 0 := congrArg Prod.snd e2
    rw [h1, h2]
    decide

/-- What `ReadPacket` does to the counter, by induction on the input left. -/
theorem ReadPacket_frameCounts (n : Nat) :
    ∀ c : PacketIO, c.Conn.unread.length ≤ n → c.Sequence < 256 →
      (ReadPacket c).2.Sequence = (c.Sequence + (frameCounts c).1) % 256 ∧
      (frameCounts c).2 ≤ (frameCounts c).1 ∧ (frameCounts c).1 ≤ (frameCounts c).2 + 1 ∧
      (∀ d, (ReadPacket c).1 = .ok d → (frameCounts c).2 = (frameCounts c).1) := by
  induction n using Nat.strong_induction_on with
  | _ n ih =>
    intro c hn hs
    by_cases h4 : c.Conn.unread.length < 4
    · rw [ReadPacket_header_short c h4, frameCounts_header_short c h4]
      refine ⟨?_, Nat.le_refl _, Nat.le_succ _, ?_⟩
      · show c.Sequence = (c.Sequence + 0) % 256
        omega
      · intro d hd
        cases hd
    · obtain ⟨⟨un, o, w⟩, s⟩ := c
      have hsplit : un = un.take 4 ++ un.drop 4 := (List.take_append_drop 4 un).symm
      have hh : (un.take 4).length = 4 := by
        rw [List.length_take]
        simp only [] at h4
        omega
      have hrest : (un.drop 4).length + 4 = un.length := by
        rw [List.length_drop]
        simp only [] at h4
        omega
      generalize un.take 4 = h at hsplit hh
      generalize un.drop 4 = rest at hsplit hrest
      subst hsplit
      simp only [] at hn hs
      rw [ReadPacket_header h rest o w s hh, frameCounts_header h rest o w s hh]
      by_cases c1 : headerLength h < 1
      · rw [if_pos c1, if_pos c1]
        refine ⟨?_, Nat.le_refl _, Nat.le_succ _, ?_⟩
        · show s = (s + 0) % 256
          omega
        · intro d hd
          cases hd
      · rw [if_neg c1, if_neg c1]
        by_cases c2 : h.getD 3 0 ≠ s
        · rw [if_pos c2, if_pos c2]
          refine ⟨?_, Nat.le_refl _, Nat.le_succ _, ?_⟩
          · show s = (s + 0) % 256
            omega
          · intro d hd
            cases hd
        · rw [if_neg c2, if_neg c2]
          by_cases c3 : rest.length < headerLength h
          · rw [if_pos c3, if_pos c3]
            refine ⟨rfl, Nat.zero_le _, Nat.le_refl _, ?_⟩
            intro d hd
            cases hd
          · rw [if_neg c3, if_neg c3]
            by_cases c4 : headerLength h < MaxPayloadLen
            · rw [if_pos c4, if_pos c4]
              exact ⟨rfl, Nat.le_refl _, Nat.le_succ _, fun _ _ => rfl⟩
            · rw [if_neg c4, if_neg c4]
              have hlt : (rest.drop (headerLength h)).length < n := by
                rw [List.length_drop]
                omega
              obtain ⟨i1, i2, i3, i4⟩ :=
                ih _ hlt ⟨⟨rest.drop (headerLength h), o, w⟩, (s + 1) % 256⟩ (Nat.le_refl _)
                  (Nat.mod_lt _ (by decide))
              generalize frameCounts ⟨⟨rest.drop (headerLength h), o, w⟩, (s + 1) % 256⟩ = k
                at i1 i2 i3 i4
              rcases hR : ReadPacket ⟨⟨rest.drop (headerLength h), o, w⟩, (s + 1) % 256⟩
                with ⟨e | buf, c2⟩
              · rw [hR] at i1
                refine ⟨?_, ?_, ?_, ?_⟩
                · show c2.Sequence = (s + (k.1 + 1)) % 256
                  rw [i1]
                  show ((s + 1) % 256 + k.1) % 256 = (s + (k.1 + 1)) % 256
                  omega
                · exact Nat.succ_le_succ i2
                · exact Nat.succ_le_succ i3
                · intro d hd
                  cases hd
              · rw [hR] at i1 i4
                refine ⟨?_, ?_, ?_, ?_⟩
                · show c2.Sequence = (s + (k.1 + 1)) % 256
                  rw [i1]
                  show ((s + 1) % 256 + k.1) % 256 = (s + (k.1 + 1)) % 256
                  omega
                · exact Nat.succ_le_succ i2
                · exact Nat.succ_le_succ i3
                · intro d _
                  show k.2 + 1 = k.1 + 1
                  rw [i4 buf rfl]

/-- C7, amended. For every `ReadPacket` call with a counter value, whether it
succeeds or fails, the final `Sequence` is the initial one plus the number of
frames whose header was read and accepted, modulo 256: the counter advances
when the header is accepted, before the payload is read. That number is the
number of frames read completely or one more, and it is the number of frames
read completely whenever `ReadPacket` succeeds. -/
theorem ReadPacket_sequence_accepted_headers (c : PacketIO) (hs : c.Sequence < 256) :
    (ReadPacket c).2.Sequence = (c.Sequence + (frameCounts c).1) % 256 ∧
    (frameCounts c).2 ≤ (frameCounts c).1 ∧ (frameCounts c).1 ≤ (frameCounts c).2 + 1 ∧
    (∀ d, (ReadPacket c).1 = .ok d → (frameCounts c).2 = (frameCounts c).1) :=
  ReadPacket_frameCounts c.Conn.unread.length c (Nat.le_refl _) hs

theorem ReadPacket_sequence_accepted_headers_witness :
    (ReadPacket ⟨⟨[5, 0, 0, 255, 1, 2], [], []⟩, 255⟩).2.Sequence =
      (255 + (frameCounts ⟨⟨[5, 0, 0, 255, 1, 2], [], []⟩, 255⟩).1) % 256 :=
  (ReadPacket_sequence_accepted_headers ⟨⟨[5, 0, 0, 255, 1, 2], [], []⟩, 255⟩ (by decide)).1

theorem headerLength_encode_nat (n b3 : Nat) (t : List Nat) (hn : n < 2 ^ 24) :
    headerLength (n % 256 :: (n >>> 8) % 256 :: (n >>> 16) % 256 :: b3 :: t) = n := by
  have e := headerLength_encode n b3 t hn
  rw [byte_natCast, byte_shiftRight, byte_shiftRight] at e
  exact e

/-- `ReadPacket` reads back the wire format of a payload whose length is not a
multiple of `MaxPayloadLen`. -/
theorem ReadPacket_wireFrames (q : Nat) :
    ∀ (s : Nat) (P rest : List Nat) (o : List (Nat × Bool)) (w : List (List Nat)),
      s < 256 → P.length / MaxPayloadLen = q → P.length % MaxPayloadLen ≠ 0 →
      ReadPacket ⟨⟨(wireFrames s P).flatten ++ rest, o, w⟩, s⟩ =
        (.ok P, ⟨⟨rest, o, w⟩, (s + q + 1) % 256⟩) := by
  induction q with
  | zero =>
    intro s P rest o w hs hq hmod
    have hlt : P.length < MaxPayloadLen := (Nat.div_eq_zero_iff MaxPayloadLen_pos).mp hq
    have hpos : 0 < P.length := by
      rw [Nat.mod_eq_of_lt hlt] at hmod
      omega
    have h24 : P.length < 2 ^ 24 := by
      rw [MaxPayloadLen_eq] at hlt
      omega
    rw [wireFrames_lt s P hlt, List.flatten_cons, List.flatten_nil, List.append_nil,
      Nat.mod_eq_of_lt hs]
    have e := ReadPacket_frame
      [P.length % 256, (P.length >>> 8) % 256, (P.length >>> 16) % 256, s] P rest o w s rfl
      (headerLength_encode_nat P.length s [] h24) hpos rfl
    rw [if_pos hlt] at e
    exact e
  | succ q ih =>
    intro s P rest o w hs hq hmod
    have hge : MaxPayloadLen ≤ P.length := by
      by_contra hlt
      rw [Nat.div_eq_of_lt (by omega)] at hq
      omega
    have hq1 : (P.drop MaxPayloadLen).length / MaxPayloadLen = q := by
      rw [Nat.div_eq_sub_div MaxPayloadLen_pos hge] at hq
      rw [List.length_drop]
      omega
    have hmod1 : (P.drop MaxPayloadLen).length % MaxPayloadLen ≠ 0 := by
      rw [Nat.mod_eq_sub_mod hge] at hmod
      rw [List.length_drop]
      exact hmod
    have hih := ih ((s + 1) % 256) (P.drop MaxPayloadLen) rest o w (Nat.mod_lt _ (by decide))
      hq1 hmod1
    have htake : (P.take MaxPayloadLen).length = MaxPayloadLen := by
      rw [List.length_take]
      omega
    have e := ReadPacket_full_frame [0xFF, 0xFF, 0xFF, s] (P.take MaxPayloadLen)
      ((wireFrames ((s + 1) % 256) (P.drop MaxPayloadLen)).flatten ++ rest) o w s rfl
      (headerLength_full s []) htake rfl _ _ hih
    rw [List.take_append_drop] at e
    rw [wireFrames_ge s P hge, List.flatten_cons, Nat.mod_eq_of_lt hs, List.append_assoc]
    have e1 : ((s + 1) % 256 + q + 1) % 256 = (s + (q + 1) + 1) % 256 := by omega
    rw [e1] at e
    exact e

/-- C1, as the claim states it, fails: the empty payload is within its range
of lengths, `WritePacket` sends it as the single frame `00 00 00 00`, and
`ReadPacket` on these bytes returns the `invalid payload length` error, not
the payload. -/
theorem roundtrip_fails_on_empty_payload :
    WritePacket ⟨⟨[], [], []⟩, 0⟩ [0, 0, 0, 0] =
      some ⟨none, ⟨⟨[], [], [[0, 0, 0, 0]]⟩, 1⟩, [0, 0, 0, 0]⟩ ∧
    ReadPacket ⟨⟨[[0, 0, 0, 0]].flatten, [], []⟩, 0⟩ =
      (.error (.invalidPayloadLength 0), ⟨⟨[], [], []⟩, 0⟩) ∧
    (ReadPacket ⟨⟨[[0, 0, 0, 0]].flatten, [], []⟩, 0⟩).1 ≠ .ok [] := by
  have e := (ReadPacket_zero_header [0, 0, 0, 0] [] [] [] 0 rfl (by decide))
  refine ⟨?_, e, ?_⟩
  · rw [WritePacket]
    exact writeFrames_final [] [] 0 [] [0, 0, 0, 0] _ (by rw [MaxPayloadLen_eq]; decide)
      (by decide)
  · intro h
    have e' : (ReadPacket ⟨⟨[[0, 0, 0, 0]].flatten, [], []⟩, 0⟩).1
        = .error (.invalidPayloadLength 0) := congrArg Prod.fst e
    rw [e'] at h
    cases h

/-- C1, amended. Round trip: for every payload `P` with
`len(P) <= 3*MaxPayloadLen + 7` whose length is not a multiple of
`MaxPayloadLen` (so not 0 either) and every counter value `s` on both sides, when
`WritePacket` is given 4 reserved bytes and `P` on a stream that accepts every
write in full, and `ReadPacket` is run with `Sequence = s` on exactly the bytes
written, then `ReadPacket` succeeds, returns `P`, consumes all the bytes, and
the writer's and the reader's `Sequence` are equal afterwards. -/
theorem roundtrip_off_boundary (u : List Nat) (o : List (Nat × Bool)) (w : List (List Nat))
    (s h0 h1 h2 h3 : Nat) (P : List Nat) (hs : s < 256)
    (_hlen : P.length ≤ 3 * MaxPayloadLen + 7) (hmod : P.length % MaxPayloadLen ≠ 0) :
    ∃ r, WritePacket ⟨⟨u, [], []⟩, s⟩ (h0 :: h1 :: h2 :: h3 :: P) = some r ∧ r.err = none ∧
      ReadPacket ⟨⟨r.c.Conn.written.flatten, o, w⟩, s⟩ =
        (.ok P, ⟨⟨[], o, w⟩, r.c.Sequence⟩) := by
  obtain ⟨B, hB⟩ := WritePacket_accepting u [] s h0 h1 h2 h3 P hs
  refine ⟨_, hB, rfl, ?_⟩
  have e := ReadPacket_wireFrames (P.length / MaxPayloadLen) s P [] o w hs rfl hmod
  rw [List.append_nil] at e
  exact e

theorem roundtrip_off_boundary_witness :
    ∃ r, WritePacket ⟨⟨[], [], []⟩, 255⟩ [0, 0, 0, 0, 10, 20, 30] = some r ∧ r.err = none ∧
      ReadPacket ⟨⟨r.c.Conn.written.flatten, [], []⟩, 255⟩ =
        (.ok [10, 20, 30], ⟨⟨[], [], []⟩, r.c.Sequence⟩) :=
  roundtrip_off_boundary [] [] [] 255 0 0 0 0 [10, 20, 30] (by decide)
    (by rw [MaxPayloadLen_eq]; decide) (by rw [MaxPayloadLen_eq]; decide)

/-! ## Header encoding, round trip and continuation failures -/

/-- C19. Header length encoding and decoding are inverse: for every `n` with
`0 <= n <= 0xFFFFFF`, the three bytes `WritePacket` stores, `byte(n)`,
`byte(n>>8)` and `byte(n>>16)`, are below 256 and are decoded by the formula
of `ReadPacket`, `b0 | b1<<8 | b2<<16`, back to `n`, whatever the fourth
header byte and what follows; and the header `FF FF FF` of the loop decodes to
`MaxPayloadLen`. -/
theorem headerLength_inverse (n b3 : Nat) (t : List Nat) (hn : n ≤ 0xFFFFFF) :
    headerLength (byte (n : Int) :: byte ((n : Int) >>> (8 : Nat)) ::
        byte ((n : Int) >>> (16 : Nat)) :: b3 :: t) = n ∧
      byte (n : Int) < 256 ∧ byte ((n : Int) >>> (8 : Nat)) < 256 ∧
      byte ((n : Int) >>> (16 : Nat)) < 256 ∧
      headerLength (0xff :: 0xff :: 0xff :: b3 :: t) = MaxPayloadLen := by
  refine ⟨headerLength_encode n b3 t (by omega), ?_, ?_, ?_, headerLength_full b3 t⟩
  · rw [byte_natCast]
    exact Nat.mod_lt _ (by decide)
  · rw [byte_shiftRight]
    exact Nat.mod_lt _ (by decide)
  · rw [byte_shiftRight]
    exact Nat.mod_lt _ (by decide)

theorem headerLength_inverse_witness :
    headerLength (byte ((0x123456 : Nat) : Int) :: byte (((0x123456 : Nat) : Int) >>> (8 : Nat)) ::
        byte (((0x123456 : Nat) : Int) >>> (16 : Nat)) :: 7 :: []) = 0x123456 :=
  (headerLength_inverse 0x123456 7 [] (by decide)).1

/-- C15. Round trip restricted to what the reader accepts: for every payload
`P` whose length is not a multiple of `MaxPayloadLen` and every counter value
`s` on both sides, `WritePacket` on 4 reserved bytes and `P`, with every write
accepted in full, returns no error, and `ReadPacket` run with `Sequence = s`
on exactly the bytes written returns `P` with no error and consumes them all;
both counters end at `(s + len(P) / MaxPayloadLen + 1) mod 256`. -/
theorem roundtrip_accepted_lengths (u : List Nat) (o : List (Nat × Bool)) (w : List (List Nat))
    (s h0 h1 h2 h3 : Nat) (P : List Nat) (hs : s < 256)
    (hmod : P.length % MaxPayloadLen ≠ 0) :
    P ≠ [] ∧
    ∃ r, WritePacket ⟨⟨u, [], []⟩, s⟩ (h0 :: h1 :: h2 :: h3 :: P) = some r ∧ r.err = none ∧
      r.c.Sequence = (s + P.length / MaxPayloadLen + 1) % 256 ∧
      ReadPacket ⟨⟨r.c.Conn.written.flatten, o, w⟩, s⟩ =
        (.ok P, ⟨⟨[], o, w⟩, (s + P.length / MaxPayloadLen + 1) % 256⟩) := by
  constructor
  · intro hP
    rw [hP, List.length_nil, Nat.zero_mod] at hmod
    exact hmod rfl
  · obtain ⟨B, hB⟩ := WritePacket_accepting u [] s h0 h1 h2 h3 P hs
    refine ⟨_, hB, rfl, rfl, ?_⟩
    have e := ReadPacket_wireFrames (P.length / MaxPayloadLen) s P [] o w hs rfl hmod
    rw [List.append_nil] at e
    exact e

theorem roundtrip_accepted_lengths_witness :
    ∃ r, WritePacket ⟨⟨[], [], []⟩, 254⟩ [0, 0, 0, 0, 5] = some r ∧ r.err = none ∧
      r.c.Sequence = (254 + [5].length / MaxPayloadLen + 1) % 256 ∧
      ReadPacket ⟨⟨r.c.Conn.written.flatten, [], []⟩, 254⟩ =
        (.ok [5], ⟨⟨[], [], []⟩, (254 + [5].length / MaxPayloadLen + 1) % 256⟩) :=
  (roundtrip_accepted_lengths [] [] [] 254 0 0 0 0 [5] (by decide)
    (by rw [MaxPayloadLen_eq]; decide)).2

/-- C12. Continuation failures are reported as connection broken: when the
input starts with a full-size frame (declared length `MaxPayloadLen`, sequence
byte equal to the counter, complete payload `D`) and reading the following
frame fails with whatever error `e`, `ReadPacket` returns `ErrBadConn` and no
payload. The following frame fails in particular when its header is cut
short, when its payload is cut short, when its sequence byte is not the next
counter value and when it declares length 0. -/
theorem ReadPacket_continuation_failure (h D : List Nat) (o : List (Nat × Bool))
    (w : List (List Nat)) (s : Nat) (hh : h.length = 4) (hl : headerLength h = MaxPayloadLen)
    (hD : D.length = MaxPayloadLen) (hs : h.getD 3 0 = s) :
    (∀ (rest : List Nat) (e : Error) (c2 : PacketIO),
      ReadPacket ⟨⟨rest, o, w⟩, (s + 1) % 256⟩ = (.error e, c2) →
      ReadPacket ⟨⟨h ++ (D ++ rest), o, w⟩, s⟩ = (.error .ErrBadConn, c2)) ∧
    (∀ rest : List Nat, rest.length < 4 →
      ReadPacket ⟨⟨h ++ (D ++ rest), o, w⟩, s⟩ =
        (.error .ErrBadConn, ⟨⟨[], o, w⟩, (s + 1) % 256⟩)) ∧
    (∀ h2 rest : List Nat, h2.length = 4 → headerLength h2 ≠ 0 →
      h2.getD 3 0 = (s + 1) % 256 → rest.length < headerLength h2 →
      ReadPacket ⟨⟨h ++ (D ++ (h2 ++ rest)), o, w⟩, s⟩ =
        (.error .ErrBadConn, ⟨⟨[], o, w⟩, ((s + 1) % 256 + 1) % 256⟩)) ∧
    (∀ h2 rest : List Nat, h2.length = 4 → headerLength h2 ≠ 0 →
      h2.getD 3 0 ≠ (s + 1) % 256 →
      ReadPacket ⟨⟨h ++ (D ++ (h2 ++ rest)), o, w⟩, s⟩ =
        (.error .ErrBadConn, ⟨⟨rest, o, w⟩, (s + 1) % 256⟩)) ∧
    (∀ h2 rest : List Nat, h2.length = 4 → headerLength h2 = 0 →
      ReadPacket ⟨⟨h ++ (D ++ (h2 ++ rest)), o, w⟩, s⟩ =
        (.error .ErrBadConn, ⟨⟨rest, o, w⟩, (s + 1) % 256⟩)) := by
  refine ⟨?_, ?_, ?_, ?_, ?_⟩
  · intro rest e c2 he
    exact ReadPacket_full_frame_error h D rest o w s hh hl hD hs e c2 he
  · intro rest hr
    exact ReadPacket_full_frame_error h D rest o w s hh hl hD hs _ _
      (ReadPacket_header_short ⟨⟨rest, o, w⟩, (s + 1) % 256⟩ hr)
  · intro h2 rest hh2 hl2 hs2 hr
    refine ReadPacket_full_frame_error h D _ o w s hh hl hD hs .ErrBadConn _ ?_
    rw [ReadPacket_header h2 rest o w _ hh2, if_neg (by omega), if_neg (not_not.mpr hs2),
      if_pos hr]
  · intro h2 rest hh2 hl2 hs2
    refine ReadPacket_full_frame_error h D _ o w s hh hl hD hs
      (.invalidSequence (h2.getD 3 0) ((s + 1) % 256)) _ ?_
    rw [ReadPacket_header h2 rest o w _ hh2, if_neg (by omega), if_pos hs2]
  · intro h2 rest hh2 hl2
    exact ReadPacket_full_frame_error h D _ o w s hh hl hD hs (.invalidPayloadLength 0) _
      (ReadPacket_zero_header h2 rest o w _ hh2 hl2)

theorem ReadPacket_continuation_failure_witness :
    ReadPacket ⟨⟨[0xff, 0xff, 0xff, 9] ++ (List.replicate MaxPayloadLen 1 ++ ([3, 0, 0, 9] ++ [1, 2, 3])),
        [], []⟩, 9⟩ =
      (.error .ErrBadConn, ⟨⟨[1, 2, 3], [], []⟩, (9 + 1) % 256⟩) :=
  (ReadPacket_continuation_failure [0xff, 0xff, 0xff, 9] (List.replicate MaxPayloadLen 1) [] [] 9
    rfl (headerLength_full 9 []) (List.length_replicate _ _) rfl).2.2.2.1
    [3, 0, 0, 9] [1, 2, 3] rfl (by decide) (by decide)

/-! ## `ReadOK` -/

/-- C13. Typed dispatch in `ReadOK`: when `ReadPacket` returns the payload `d`
and `d[0]` is `OK_HEADER`, `ReadOK` returns `LoadOK(d)` and no error; when
`d[0]` is `ERR_HEADER` (a tag other than `OK_HEADER`), it returns no packet and
`LoadError(d)` as its error; for every other first byte it returns no packet
and the `invalid ok packet` error; and when `ReadPacket` fails, `ReadOK`
returns no packet and the error of `ReadPacket`. The receiver is left as
`ReadPacket` leaves it. -/
theorem ReadOK_dispatch {α ε : Type} (k : Codec α ε) (c c1 : PacketIO) :
    (∀ d : List Nat, ReadPacket c = (.ok d, c1) → d[0]? = some k.OK_HEADER →
      ReadOK k c = (some (.ok (k.LoadOK d)), c1)) ∧
    (∀ d : List Nat, ReadPacket c = (.ok d, c1) → d[0]? = some k.ERR_HEADER →
      k.ERR_HEADER ≠ k.OK_HEADER →
      ReadOK k c = (some (.error (.loaded (k.LoadError d))), c1)) ∧
    (∀ (d : List Nat) (tag : Nat), ReadPacket c = (.ok d, c1) → d[0]? = some tag →
      tag ≠ k.OK_HEADER → tag ≠ k.ERR_HEADER →
      ReadOK k c = (some (.error .invalidOkPacket), c1)) ∧
    (∀ e : Error, ReadPacket c = (.error e, c1) →
      ReadOK k c = (some (.error (.packet e)), c1)) := by
  refine ⟨?_, ?_, ?_, ?_⟩
  · intro d hd h0
    unfold ReadOK
    rw [hd]
    simp only [h0, if_true]
  · intro d hd h0 hne
    unfold ReadOK
    rw [hd]
    simp only [h0, if_neg hne, if_true]
  · intro d tag hd h0 h1 h2
    unfold ReadOK
    rw [hd]
    simp only [h0, if_neg h1, if_neg h2]
  · intro e he
    unfold ReadOK
    rw [he]

theorem ReadPacket_single_frame (h D rest : List Nat) (o : List (Nat × Bool))
    (w : List (List Nat)) (s : Nat) (hh : h.length = 4) (hl : headerLength h = D.length)
    (h1 : 1 ≤ D.length) (hlt : D.length < MaxPayloadLen) (hs : h.getD 3 0 = s) :
    ReadPacket ⟨⟨h ++ (D ++ rest), o, w⟩, s⟩ = (.ok D, ⟨⟨rest, o, w⟩, (s + 1) % 256⟩) := by
  rw [ReadPacket_frame h D rest o w s hh hl h1 hs, if_pos hlt]

theorem ReadOK_dispatch_witness :
    ReadOK (⟨0, 255, id, id⟩ : Codec (List Nat) (List Nat))
        ⟨⟨[2, 0, 0, 7] ++ ([0, 9] ++ [4]), [], []⟩, 7⟩ =
      (some (.ok [0, 9]), ⟨⟨[4], [], []⟩, 8⟩) ∧
    ReadOK (⟨0, 255, id, id⟩ : Codec (List Nat) (List Nat))
        ⟨⟨[2, 0, 0, 7] ++ ([255, 9] ++ [4]), [], []⟩, 7⟩ =
      (some (.error (.loaded [255, 9])), ⟨⟨[4], [], []⟩, 8⟩) :=
  ⟨(ReadOK_dispatch ⟨0, 255, id, id⟩ ⟨⟨[2, 0, 0, 7] ++ ([0, 9] ++ [4]), [], []⟩, 7⟩
      ⟨⟨[4], [], []⟩, 8⟩).1 [0, 9]
      (ReadPacket_single_frame [2, 0, 0, 7] [0, 9] [4] [] [] 7 rfl (by decide) (by decide)
        (by rw [MaxPayloadLen_eq]; decide) rfl) rfl,
    (ReadOK_dispatch ⟨0, 255, id, id⟩ ⟨⟨[2, 0, 0, 7] ++ ([255, 9] ++ [4]), [], []⟩, 7⟩
      ⟨⟨[4], [], []⟩, 8⟩).2.1 [255, 9]
      (ReadPacket_single_frame [2, 0, 0, 7] [255, 9] [4] [] [] 7 rfl (by decide) (by decide)
        (by rw [MaxPayloadLen_eq]; decide) rfl) rfl (by decide)⟩

/-- A header of 4 bytes declares at most `MaxPayloadLen`. -/
theorem headerLength_le (h : List Nat) (hh : h.length = 4) (hb : ∀ b ∈ h, b < 256) :
    headerLength h ≤ MaxPayloadLen := by
  match h, hh with
  | [b0, b1, b2, b3], _ =>
    have h0 : b0 < 256 := hb b0 (by simp)
    have h1 : b1 < 256 := hb b1 (by simp)
    have h2 : b2 < 256 := hb b2 (by simp)
    rw [headerLength_cons, or_shift_eq_add b0 b1 b2 h0 h1 h2, MaxPayloadLen_eq]
    omega

/-- The length of a payload `ReadPacket` returns, by induction on the input
left. -/
theorem ReadPacket_ok_length (n : Nat) :
    ∀ (c c1 : PacketIO) (d : List Nat), c.Conn.unread.length ≤ n →
      (∀ b ∈ c.Conn.unread, b < 256) → ReadPacket c = (.ok d, c1) →
      d.length % MaxPayloadLen ≠ 0 := by
  induction n using Nat.strong_induction_on with
  | _ n ih =>
    intro c c1 d hn hb hok
    by_cases h4 : c.Conn.unread.length < 4
    · rw [ReadPacket_header_short c h4] at hok
      cases hok
    · obtain ⟨⟨un, o, w⟩, s⟩ := c
      have hsplit : un = un.take 4 ++ un.drop 4 := (List.take_append_drop 4 un).symm
      have hh : (un.take 4).length = 4 := by
        rw [List.length_take]
        simp only [] at h4
        omega
      have hbh : ∀ b ∈ un.take 4, b < 256 := fun b hm => hb b (List.mem_of_mem_take hm)
      have hbr : ∀ b ∈ un.drop 4, b < 256 := fun b hm => hb b (List.mem_of_mem_drop hm)
      have hrest : (un.drop 4).length + 4 = un.length := by
        rw [List.length_drop]
        simp only [] at h4
        omega
      generalize un.take 4 = h at hsplit hh hbh
      generalize un.drop 4 = rest at hsplit hrest hbr
      subst hsplit
      simp only [] at hn
      have hle := headerLength_le h hh hbh
      rw [ReadPacket_header h rest o w s hh] at hok
      by_cases c1' : headerLength h < 1
      · rw [if_pos c1'] at hok
        cases hok
      · rw [if_neg c1'] at hok
        by_cases c2 : h.getD 3 0 ≠ s
        · rw [if_pos c2] at hok
          cases hok
        · rw [if_neg c2] at hok
          by_cases c3 : rest.length < headerLength h
          · rw [if_pos c3] at hok
            cases hok
          · rw [if_neg c3] at hok
            have htake : (rest.take (headerLength h)).length = headerLength h := by
              rw [List.length_take]
              omega
            by_cases c4 : headerLength h < MaxPayloadLen
            · rw [if_pos c4] at hok
              cases hok
              rw [htake, Nat.mod_eq_of_lt c4]
              omega
            · rw [if_neg c4] at hok
              have hlt : (rest.drop (headerLength h)).length < n := by
                rw [List.length_drop]
                omega
              rcases hR : ReadPacket ⟨⟨rest.drop (headerLength h), o, w⟩, (s + 1) % 256⟩
                with ⟨e | buf, c2'⟩
              · rw [hR] at hok
                cases hok
              · rw [hR] at hok
                cases hok
                have hbuf := ih _ hlt ⟨⟨rest.drop (headerLength h), o, w⟩, (s + 1) % 256⟩ c1 buf
                  (Nat.le_refl _) (fun b hm => hbr b (List.mem_of_mem_drop hm)) hR
                have hM : headerLength h = MaxPayloadLen := by omega
                rw [List.length_append, htake, hM, Nat.add_mod, Nat.mod_self, Nat.zero_add,
                  Nat.mod_mod]
                exact hbuf

/-- C14. Every payload `ReadPacket` returns successfully, on an input of
bytes, has a length that is not a multiple of `MaxPayloadLen`; in particular
it is not empty, so that `data[0]` in `ReadOK` is in range: `ReadOK` never
panics. -/
theorem ReadPacket_payload_not_multiple (c : PacketIO)
    (hb : ∀ b ∈ c.Conn.unread, b < 256) :
    (∀ (c1 : PacketIO) (d : List Nat), ReadPacket c = (.ok d, c1) →
      d.length % MaxPayloadLen ≠ 0 ∧ d ≠ [] ∧ 0 < d.length) ∧
    (∀ (α ε : Type) (k : Codec α ε), (ReadOK k c).1 ≠ none) := by
  have key : ∀ (c1 : PacketIO) (d : List Nat), ReadPacket c = (.ok d, c1) →
      d.length % MaxPayloadLen ≠ 0 ∧ d ≠ [] ∧ 0 < d.length := by
    intro c1 d hok
    have hmod := ReadPacket_ok_length c.Conn.unread.length c c1 d (Nat.le_refl _) hb hok
    have hpos : 0 < d.length := by
      rcases Nat.eq_zero_or_pos d.length with h0 | h0
      · rw [h0, Nat.zero_mod] at hmod
        exact absurd rfl hmod
      · exact h0
    exact ⟨hmod, List.ne_nil_of_length_pos hpos, hpos⟩
  refine ⟨key, ?_⟩
  intro α ε k
  unfold ReadOK
  rcases hR : ReadPacket c with ⟨e | d, c1⟩
  · intro hn
    cases hn
  · obtain ⟨_, hne, _⟩ := key c1 d hR
    match d, hne with
    | x :: t, _ =>
      simp only [List.getElem?_cons_zero]
      split
      · intro hn
        cases hn
      · split
        · intro hn
          cases hn
        · intro hn
          cases hn

theorem ReadPacket_payload_not_multiple_witness :
    ReadPacket ⟨⟨[2, 0, 0, 7] ++ ([0, 9] ++ [4]), [], []⟩, 7⟩ =
      (.ok [0, 9], ⟨⟨[4], [], []⟩, 8⟩) ∧
    ([0, 9].length % MaxPayloadLen ≠ 0 ∧ [0, 9] ≠ [] ∧ 0 < [0, 9].length) ∧
    (ReadOK (⟨0, 255, id, id⟩ : Codec (List Nat) (List Nat))
      ⟨⟨[2, 0, 0, 7] ++ ([0, 9] ++ [4]), [], []⟩, 7⟩).1 ≠ none :=
  ⟨ReadPacket_single_frame [2, 0, 0, 7] [0, 9] [4] [] [] 7 rfl (by decide) (by decide)
      (by rw [MaxPayloadLen_eq]; decide) rfl,
    (ReadPacket_payload_not_multiple ⟨⟨[2, 0, 0, 7] ++ ([0, 9] ++ [4]), [], []⟩, 7⟩
      (by decide)).1 ⟨⟨[4], [], []⟩, 8⟩ [0, 9]
      (ReadPacket_single_frame [2, 0, 0, 7] [0, 9] [4] [] [] 7 rfl (by decide) (by decide)
        (by rw [MaxPayloadLen_eq]; decide) rfl),
    (ReadPacket_payload_not_multiple ⟨⟨[2, 0, 0, 7] ++ ([0, 9] ++ [4]), [], []⟩, 7⟩
      (by decide)).2 (List Nat) (List Nat) ⟨0, 255, id, id⟩⟩

/-! ## Termination of `ReadPacket` -/

theorem ReadPacketDepth_header_short (n : Nat) (c : PacketIO) (h : c.Conn.unread.length < 4) :
    ReadPacketDepth (n + 1) c =
      some (.error .ErrBadConn, { c with Conn := { c.Conn with unread := [] } }) := by
  rw [ReadPacketDepth, ReadFull_short c.Conn 4 h]

/-- One step of the depth-limited `ReadPacket` on a stream that holds at least
a header. -/
theorem ReadPacketDepth_header (n : Nat) (h rest : List Nat) (o : List (Nat × Bool))
    (w : List (List Nat)) (s : Nat) (hh : h.length = 4) :
    ReadPacketDepth (n + 1) ⟨⟨h ++ rest, o, w⟩, s⟩ =
      if headerLength h < 1 then
        some (.error (.invalidPayloadLength (headerLength h)), ⟨⟨rest, o, w⟩, s⟩)
      else if h.getD 3 0 ≠ s then
        some (.error (.invalidSequence (h.getD 3 0) s), ⟨⟨rest, o, w⟩, s⟩)
      else if rest.length < headerLength h then
        some (.error .ErrBadConn, ⟨⟨[], o, w⟩, (s + 1) % 256⟩)
      else if headerLength h < MaxPayloadLen then
        some (.ok (rest.take (headerLength h)),
          ⟨⟨rest.drop (headerLength h), o, w⟩, (s + 1) % 256⟩)
      else
        match ReadPacketDepth n ⟨⟨rest.drop (headerLength h), o, w⟩, (s + 1) % 256⟩ with
        | none => none
        | some (.error _, c2) => some (.error .ErrBadConn, c2)
        | some (.ok buf, c2) => some (.ok (rest.take (headerLength h) ++ buf), c2) := by
  have e1 : ReadFull ⟨h ++ rest, o, w⟩ 4 = (some h, ⟨rest, o, w⟩) := by
    rw [← hh]
    exact ReadFull_append h rest o w
  rw [ReadPacketDepth, e1]
  simp only []
  by_cases c1 : headerLength h < 1
  · rw [if_pos c1, if_pos c1]
  · rw [if_neg c1, if_neg c1]
    by_cases c2 : h.getD 3 0 ≠ s
    · rw [if_pos c2, if_pos c2]
    · rw [if_neg c2, if_neg c2]
      by_cases c3 : rest.length < headerLength h
      · rw [if_pos c3]
        simp only [incSequence, ReadFull, if_neg (show ¬ headerLength h ≤ rest.length by omega)]
      · rw [if_neg c3]
        simp only [incSequence, ReadFull, if_pos (show headerLength h ≤ rest.length by omega)]

/-- Each nested call of `ReadPacket` comes after `4 + MaxPayloadLen` bytes or
more have been consumed. -/
theorem depth_bound_step (len hl n : Nat) (h1 : MaxPayloadLen ≤ hl) (h2 : hl ≤ len)
    (hn : (4 + len) / (4 + MaxPayloadLen) + 1 ≤ n + 1) :
    (len - hl) / (4 + MaxPayloadLen) + 1 ≤ n := by
  rw [MaxPayloadLen_eq] at *
  omega

/-- With a limit of `len(input) / (4 + MaxPayloadLen) + 1` nested calls or
more, the depth-limited `ReadPacket` is `ReadPacket`. -/
theorem ReadPacketDepth_eq (n : Nat) :
    ∀ c : PacketIO, c.Conn.unread.length / (4 + MaxPayloadLen) + 1 ≤ n →
      ReadPacketDepth n c = some (ReadPacket c) := by
  induction n with
  | zero =>
    intro c hn
    exact absurd hn (Nat.not_succ_le_zero _)
  | succ n ih =>
    intro c hn
    by_cases h4 : c.Conn.unread.length < 4
    · rw [ReadPacketDepth_header_short n c h4, ReadPacket_header_short c h4]
    · obtain ⟨⟨un, o, w⟩, s⟩ := c
      have hsplit : un = un.take 4 ++ un.drop 4 := (List.take_append_drop 4 un).symm
      have hh : (un.take 4).length = 4 := by
        rw [List.length_take]
        simp only [] at h4
        omega
      have hrest : 4 + (un.drop 4).length = un.length := by
        rw [List.length_drop]
        simp only [] at h4
        omega
      generalize un.take 4 = h at hsplit hh
      generalize un.drop 4 = rest at hsplit hrest
      subst hsplit
      simp only [] at hn
      rw [← hrest] at hn
      rw [ReadPacketDepth_header n h rest o w s hh, ReadPacket_header h rest o w s hh]
      by_cases c1 : headerLength h < 1
      · rw [if_pos c1, if_pos c1]
      · rw [if_neg c1, if_neg c1]
        by_cases c2 : h.getD 3 0 ≠ s
        · rw [if_pos c2, if_pos c2]
        · rw [if_neg c2, if_neg c2]
          by_cases c3 : rest.length < headerLength h
          · rw [if_pos c3, if_pos c3]
          · rw [if_neg c3, if_neg c3]
            by_cases c4 : headerLength h < MaxPayloadLen
            · rw [if_pos c4, if_pos c4]
            · rw [if_neg c4, if_neg c4]
              have hd : (rest.drop (headerLength h)).length / (4 + MaxPayloadLen) + 1 ≤ n := by
                rw [List.length_drop]
                exact depth_bound_step rest.length (headerLength h) n (by omega) (by omega) hn
              rw [ih ⟨⟨rest.drop (headerLength h), o, w⟩, (s + 1) % 256⟩ hd]
              rcases ReadPacket ⟨⟨rest.drop (headerLength h), o, w⟩, (s + 1) % 256⟩
                with ⟨e | buf, c2'⟩
              · rfl
              · rfl

/-- C18. `ReadPacket` terminates on every finite input: it is a total function
by well-founded recursion on the unread input, and the depth of its recursion
is at most `len(input) / (4 + MaxPayloadLen) + 1`: limited to that many nested
calls, or to more, it gives the result of `ReadPacket`, because a nested call
is made only after a header and `MaxPayloadLen` payload bytes have been
consumed. With no call allowed there is no result. -/
theorem ReadPacket_terminates (c : PacketIO) (n : Nat)
    (hn : c.Conn.unread.length / (4 + MaxPayloadLen) + 1 ≤ n) :
    ReadPacketDepth n c = some (ReadPacket c) ∧ ReadPacketDepth 0 c = none :=
  ⟨ReadPacketDepth_eq n c hn, rfl⟩

theorem ReadPacket_terminates_witness :
    ReadPacketDepth 1 ⟨⟨[2, 0, 0, 7, 1, 2, 3], [], []⟩, 7⟩ =
      some (ReadPacket ⟨⟨[2, 0, 0, 7, 1, 2, 3], [], []⟩, 7⟩) :=
  (ReadPacket_terminates ⟨⟨[2, 0, 0, 7, 1, 2, 3], [], []⟩, 7⟩ 1
    (by rw [MaxPayloadLen_eq]; decide)).1

/-! ## Index safety of `WritePacket` -/

/-- The loop invariant of `WritePacket`: entered with a window of at least 4
bytes and `length = len(window) - 4`, the body never panics, whatever the
stream answers, and the buffer keeps its length. -/
theorem writeFrames_safe (n : Nat) :
    ∀ (c : PacketIO) (pre data : List Nat), data.length ≤ n → 4 ≤ data.length →
      ∃ r, writeFrames c pre data ((data.length : Int) - 4) = some r ∧
        r.buffer.length = pre.length + data.length := by
  induction n using Nat.strong_induction_on with
  | _ n ih =>
    intro c pre data hn hd
    have hM4 : 4 ≤ MaxPayloadLen := by
      rw [MaxPayloadLen_eq]
      omega
    by_cases hl : ((data.length : Int) - 4) ≥ MaxPayloadLen
    · have hlen : 4 + MaxPayloadLen ≤ data.length := by omega
      have e : (0xff :: 0xff :: 0xff :: c.Sequence :: List.drop 4 data).length = data.length := by
        simp only [List.length_cons, List.length_drop]
        omega
      rw [writeFrames, dif_pos hl, storeHeader_eq _ _ _ _ _ hd]
      simp only [sliceTo, e, if_pos hlen]
      rcases c.Conn.Write (List.take (4 + MaxPayloadLen)
        (0xff :: 0xff :: 0xff :: c.Sequence :: List.drop 4 data)) with ⟨⟨m, err⟩, conn⟩
      simp only []
      by_cases herr : err = true
      · rw [if_pos herr]
        exact ⟨_, rfl, by rw [List.length_append, e]⟩
      · rw [if_neg herr]
        by_cases hm : m ≠ 4 + MaxPayloadLen
        · rw [if_pos hm]
          exact ⟨_, rfl, by rw [List.length_append, e]⟩
        · rw [if_neg hm]
          simp only [sliceFrom, e, if_pos (show MaxPayloadLen ≤ data.length by omega)]
          have hl2 : (List.drop MaxPayloadLen
              (0xff :: 0xff :: 0xff :: c.Sequence :: List.drop 4 data)).length
              = data.length - MaxPayloadLen := by
            rw [List.length_drop, e]
          have hc : ((data.length : Int) - 4 - MaxPayloadLen)
              = (((List.drop MaxPayloadLen
                (0xff :: 0xff :: 0xff :: c.Sequence :: List.drop 4 data)).length : Nat) : Int)
                - 4 := by
            rw [hl2]
            omega
          rw [hc]
          obtain ⟨r, hr, hb⟩ := ih (data.length - MaxPayloadLen) (by omega)
            (incSequence { c with Conn := conn })
            (pre ++ List.take MaxPayloadLen
              (0xff :: 0xff :: 0xff :: c.Sequence :: List.drop 4 data))
            (List.drop MaxPayloadLen (0xff :: 0xff :: 0xff :: c.Sequence :: List.drop 4 data))
            (by rw [hl2]) (by rw [hl2]; omega)
          refine ⟨r, hr, ?_⟩
          rw [hb, hl2, List.length_append, List.length_take, e]
          omega
    · have e : (byte ((data.length : Int) - 4) :: byte (((data.length : Int) - 4) >>> (8 : Nat)) ::
          byte (((data.length : Int) - 4) >>> (16 : Nat)) :: c.Sequence ::
          List.drop 4 data).length = data.length := by
        simp only [List.length_cons, List.length_drop]
        omega
      rw [writeFrames, dif_neg hl, storeHeader_eq _ _ _ _ _ hd]
      simp only []
      rcases c.Conn.Write (byte ((data.length : Int) - 4) ::
        byte (((data.length : Int) - 4) >>> (8 : Nat)) ::
        byte (((data.length : Int) - 4) >>> (16 : Nat)) :: c.Sequence ::
        List.drop 4 data) with ⟨⟨m, err⟩, conn⟩
      simp only []
      by_cases herr : err = true
      · rw [if_pos herr]
        exact ⟨_, rfl, by rw [List.length_append, e]⟩
      · rw [if_neg herr]
        by_cases hm : m ≠ (byte ((data.length : Int) - 4) ::
            byte (((data.length : Int) - 4) >>> (8 : Nat)) ::
            byte (((data.length : Int) - 4) >>> (16 : Nat)) :: c.Sequence ::
            List.drop 4 data).length
        · rw [if_pos hm]
          exact ⟨_, rfl, by rw [List.length_append, e]⟩
        · rw [if_neg hm]
          exact ⟨_, rfl, by rw [List.length_append, e]⟩

/-- Below 4 bytes the header stores of `WritePacket` panic. -/
theorem WritePacket_short_buffer_panics (c : PacketIO) (data : List Nat)
    (hd : data.length < 4) : WritePacket c data = none := by
  have hl : ¬ ((data.length : Int) - 4) ≥ MaxPayloadLen := by omega
  rw [WritePacket, writeFrames, dif_neg hl, storeHeader_none _ _ _ _ _ hd]

/-- C16. `WritePacket` is index-safe under its precondition: for every buffer
with `len(data) >= 4`, every receiver and every behaviour of the stream, the
call does not panic: the loop is entered and left with
`len(window) = length + 4` and `length >= 0`, so the stores `data[0..3]`, the
slice `data[:4+MaxPayloadLen]` and the re-slice `data[MaxPayloadLen:]` are in
range in every turn and in the final frame. The caller's buffer keeps its
length. -/
theorem WritePacket_index_safe (c : PacketIO) (data : List Nat) (hd : 4 ≤ data.length) :
    ∃ r, WritePacket c data = some r ∧ r.buffer.length = data.length := by
  obtain ⟨r, hr, hb⟩ := writeFrames_safe data.length c [] data (Nat.le_refl _) hd
  refine ⟨r, hr, ?_⟩
  rw [hb, List.length_nil, Nat.zero_add]

theorem WritePacket_index_safe_witness :
    ∃ r, WritePacket ⟨⟨[], [(3, false)], []⟩, 7⟩ [0, 0, 0, 0, 1, 2] = some r ∧
      r.buffer.length = [0, 0, 0, 0, 1, 2].length :=
  WritePacket_index_safe ⟨⟨[], [(3, false)], []⟩, 7⟩ [0, 0, 0, 0, 1, 2] (by decide)

/-! ## Short writes -/

/-- One turn of the loop when the stream accepts the full-size frame. -/
theorem writeFrames_loop_ok (u : List Nat) (os : List (Nat × Bool)) (w : List (List Nat))
    (s : Nat) (pre data : List Nat) (length : Int) (hl : length ≥ MaxPayloadLen)
    (hd : 4 + MaxPayloadLen ≤ data.length) :
    writeFrames ⟨⟨u, (4 + MaxPayloadLen, false) :: os, w⟩, s⟩ pre data length =
      writeFrames
        ⟨⟨u, os, w ++ [0xff :: 0xff :: 0xff :: s :: (data.drop 4).take MaxPayloadLen]⟩,
          (s + 1) % 256⟩
        (pre ++ (0xff :: 0xff :: 0xff :: s :: data.drop 4).take MaxPayloadLen)
        ((0xff :: 0xff :: 0xff :: s :: data.drop 4).drop MaxPayloadLen)
        (length - MaxPayloadLen) := by
  have h4 : 4 ≤ data.length := by omega
  have e : (0xff :: 0xff :: 0xff :: s :: List.drop 4 data).length = data.length := by
    simp only [List.length_cons, List.length_drop]
    omega
  have et : List.take (4 + MaxPayloadLen) (0xff :: 0xff :: 0xff :: s :: List.drop 4 data)
      = 0xff :: 0xff :: 0xff :: s :: (data.drop 4).take MaxPayloadLen := by
    rw [show 4 + MaxPayloadLen = MaxPayloadLen + 1 + 1 + 1 + 1 by omega]
    simp only [List.take_succ_cons]
  have el : (0xff :: 0xff :: 0xff :: s :: List.take MaxPayloadLen (List.drop 4 data)).length
      = 4 + MaxPayloadLen := by
    simp only [List.length_cons, List.length_take, List.length_drop]
    omega
  have ett : List.take (4 + MaxPayloadLen)
      (0xff :: 0xff :: 0xff :: s :: List.take MaxPayloadLen (List.drop 4 data))
      = 0xff :: 0xff :: 0xff :: s :: List.take MaxPayloadLen (List.drop 4 data) :=
    List.take_of_length_le (Nat.le_of_eq el)
  rw [writeFrames, dif_pos hl, storeHeader_eq _ _ _ _ _ h4]
  simp only [sliceTo, sliceFrom, e, if_pos hd, Conn.Write, et, ett,
    if_pos (show MaxPayloadLen ≤ data.length by omega), incSequence]
  simp

/-- One turn of the loop when the stream fails on the full-size frame or
accepts another number of bytes than asked. -/
theorem writeFrames_loop_fail (u : List Nat) (os : List (Nat × Bool)) (w : List (List Nat))
    (s n : Nat) (err : Bool) (pre data : List Nat) (length : Int)
    (hl : length ≥ MaxPayloadLen) (hd : 4 + MaxPayloadLen ≤ data.length)
    (hfail : err = true ∨ n ≠ 4 + MaxPayloadLen) :
    writeFrames ⟨⟨u, (n, err) :: os, w⟩, s⟩ pre data length =
      some ⟨some .ErrBadConn,
        ⟨⟨u, os, w ++
          [(0xff :: 0xff :: 0xff :: s :: (data.drop 4).take MaxPayloadLen).take n]⟩, s⟩,
        pre ++ (0xff :: 0xff :: 0xff :: s :: data.drop 4)⟩ := by
  have h4 : 4 ≤ data.length := by omega
  have e : (0xff :: 0xff :: 0xff :: s :: List.drop 4 data).length = data.length := by
    simp only [List.length_cons, List.length_drop]
    omega
  have et : List.take (4 + MaxPayloadLen) (0xff :: 0xff :: 0xff :: s :: List.drop 4 data)
      = 0xff :: 0xff :: 0xff :: s :: (data.drop 4).take MaxPayloadLen := by
    rw [show 4 + MaxPayloadLen = MaxPayloadLen + 1 + 1 + 1 + 1 by omega]
    simp only [List.take_succ_cons]
  rw [writeFrames, dif_pos hl, storeHeader_eq _ _ _ _ _ h4]
  simp only [sliceTo, e, if_pos hd, Conn.Write, et]
  rcases hfail with h | h
  · rw [if_pos h]
  · by_cases herr : err = true
    · rw [if_pos herr]
    · rw [if_neg herr, if_pos h]

/-- The last frame when the stream fails on it or accepts another number of
bytes than asked. -/
theorem writeFrames_final_fail (u : List Nat) (os : List (Nat × Bool)) (w : List (List Nat))
    (s n : Nat) (err : Bool) (pre data : List Nat) (length : Int)
    (hl : length < MaxPayloadLen) (hd : 4 ≤ data.length)
    (hfail : err = true ∨ n ≠ data.length) :
    writeFrames ⟨⟨u, (n, err) :: os, w⟩, s⟩ pre data length =
      some ⟨some .ErrBadConn,
        ⟨⟨u, os, w ++ [(byte length :: byte (length >>> (8 : Nat)) ::
            byte (length >>> (16 : Nat)) :: s :: data.drop 4).take n]⟩, s⟩,
        pre ++ (byte length :: byte (length >>> (8 : Nat)) ::
            byte (length >>> (16 : Nat)) :: s :: data.drop 4)⟩ := by
  have e : (byte length :: byte (length >>> (8 : Nat)) :: byte (length >>> (16 : Nat)) :: s ::
      List.drop 4 data).length = data.length := by
    simp only [List.length_cons, List.length_drop]
    omega
  rw [writeFrames, dif_neg (by omega), storeHeader_eq _ _ _ _ _ hd]
  simp only [Conn.Write, e]
  rcases hfail with h | h
  · rw [if_pos h]
  · by_cases herr : err = true
    · rw [if_pos herr]
    · rw [if_neg herr, if_pos h]

/-- A stream that accepts `k` full-size frames and then fails on the next
write, or accepts another number of bytes than asked: the body of
`WritePacket` returns `ErrBadConn` at that write. -/
theorem writeFrames_short_write (k : Nat) :
    ∀ (u : List Nat) (os : List (Nat × Bool)) (w : List (List Nat)) (s : Nat)
      (pre data : List Nat) (n : Nat) (err : Bool),
      s < 256 → 4 ≤ data.length → k ≤ (data.length - 4) / MaxPayloadLen →
      (err = true ∨ n ≠ (if k < (data.length - 4) / MaxPayloadLen then 4 + MaxPayloadLen
        else 4 + (data.length - 4) % MaxPayloadLen)) →
      ∃ B, writeFrames
          ⟨⟨u, List.replicate k (4 + MaxPayloadLen, false) ++ (n, err) :: os, w⟩, s⟩
          pre data ((data.length : Int) - 4) =
        some ⟨some .ErrBadConn,
          ⟨⟨u, os, w ++ (wireFrames s (data.drop 4)).take k ++
            [((wireFrames s (data.drop 4)).getD k []).take n]⟩, (s + k) % 256⟩, B⟩ := by
  induction k with
  | zero =>
    intro u os w s pre data n err hs hd _ hfail
    have hc : ((data.length : Int) - 4) = ((data.length - 4 : Nat) : Int) := by omega
    rw [List.replicate_zero, List.nil_append, List.take_zero, List.append_nil, Nat.add_zero,
      Nat.mod_eq_of_lt hs]
    by_cases hq : 0 < (data.length - 4) / MaxPayloadLen
    · rw [if_pos hq] at hfail
      have hge : MaxPayloadLen ≤ data.length - 4 := by
        by_contra hlt
        rw [Nat.div_eq_of_lt (by omega)] at hq
        omega
      rw [writeFrames_loop_fail u os w s n err pre data _ (by omega) (by omega) hfail,
        wireFrames_ge s _ (by rw [List.length_drop]; exact hge), List.getD_cons_zero,
        Nat.mod_eq_of_lt hs]
      exact ⟨_, rfl⟩
    · rw [if_neg hq] at hfail
      have hq0 : (data.length - 4) / MaxPayloadLen = 0 := by omega
      have hlt : data.length - 4 < MaxPayloadLen :=
        (Nat.div_eq_zero_iff MaxPayloadLen_pos).mp hq0
      rw [Nat.mod_eq_of_lt hlt] at hfail
      have hfail2 : err = true ∨ n ≠ data.length := by
        rcases hfail with h | h
        · exact Or.inl h
        · exact Or.inr (by omega)
      rw [writeFrames_final_fail u os w s n err pre data _ (by omega) hd hfail2, hc,
        byte_natCast, byte_shiftRight, byte_shiftRight,
        wireFrames_lt s _ (by rw [List.length_drop]; exact hlt), List.getD_cons_zero,
        List.length_drop, Nat.mod_eq_of_lt hs]
      exact ⟨_, rfl⟩
  | succ k ih =>
    intro u os w s pre data n err hs hd hk hfail
    have hM4 : 4 ≤ MaxPayloadLen := by
      rw [MaxPayloadLen_eq]
      omega
    have hge : MaxPayloadLen ≤ data.length - 4 := by
      by_contra hlt
      rw [Nat.div_eq_of_lt (by omega)] at hk
      omega
    have hq1 : (data.length - 4) / MaxPayloadLen
        = (data.length - 4 - MaxPayloadLen) / MaxPayloadLen + 1 :=
      Nat.div_eq_sub_div MaxPayloadLen_pos hge
    have hr1 : (data.length - 4) % MaxPayloadLen
        = (data.length - 4 - MaxPayloadLen) % MaxPayloadLen :=
      Nat.mod_eq_sub_mod hge
    have hdrop : (0xff :: 0xff :: 0xff :: s :: data.drop 4).drop MaxPayloadLen
        = data.drop MaxPayloadLen := by
      have e : 4 + (MaxPayloadLen - 4) = MaxPayloadLen := by omega
      rw [drop_header _ _ _ _ _ _ hM4, List.drop_drop, e]
    have hlen : (data.drop MaxPayloadLen).length = data.length - MaxPayloadLen :=
      List.length_drop _ _
    have hc : ((data.length : Int) - 4 - MaxPayloadLen)
        = (((data.drop MaxPayloadLen).length : Nat) : Int) - 4 := by
      rw [hlen]
      omega
    have hq2 : data.length - MaxPayloadLen - 4 = data.length - 4 - MaxPayloadLen := by omega
    have hfail1 : err = true ∨ n ≠
        (if k < ((data.drop MaxPayloadLen).length - 4) / MaxPayloadLen then 4 + MaxPayloadLen
          else 4 + ((data.drop MaxPayloadLen).length - 4) % MaxPayloadLen) := by
      rw [hlen, hq2]
      rcases hfail with h | h
      · exact Or.inl h
      · right
        by_cases hk1 : k < (data.length - 4 - MaxPayloadLen) / MaxPayloadLen
        · rw [if_pos hk1]
          rw [if_pos (by omega)] at h
          exact h
        · rw [if_neg hk1]
          rw [if_neg (by omega), hr1] at h
          exact h
    obtain ⟨B, hB⟩ := ih u os
      (w ++ [0xff :: 0xff :: 0xff :: s :: (data.drop 4).take MaxPayloadLen]) ((s + 1) % 256)
      (pre ++ (0xff :: 0xff :: 0xff :: s :: data.drop 4).take MaxPayloadLen)
      (data.drop MaxPayloadLen) n err (Nat.mod_lt _ (by omega)) (by rw [hlen]; omega)
      (by rw [hlen, hq2]; omega) hfail1
    refine ⟨B, ?_⟩
    rw [List.replicate_succ, List.cons_append,
      writeFrames_loop_ok u _ w s pre data _ (by omega) (by omega), hdrop, hc, hB,
      wireFrames_ge s _ (by rw [List.length_drop]; exact hge), Nat.mod_eq_of_lt hs,
      List.drop_drop, List.drop_drop, List.take_succ_cons, List.getD_cons_succ,
      List.append_assoc, List.append_assoc, List.append_assoc, List.singleton_append]
    have e1 : ((s + 1) % 256 + k) % 256 = (s + (k + 1)) % 256 := by omega
    have e2 : MaxPayloadLen + 4 = 4 + MaxPayloadLen := Nat.add_comm _ _
    rw [e1, e2, List.cons_append]

theorem wireFrames_length (s : Nat) (P : List Nat) :
    (wireFrames s P).length = P.length / MaxPayloadLen + 1 := by
  have h := congrArg List.length (declaredLength_wireFrames s P)
  rw [List.length_map, List.length_append, List.length_replicate, List.length_singleton] at h
  exact h

/-- C11. Short write: for a buffer of 4 reserved bytes and a payload `P`, when
the stream accepts the first `k` frames in full (`k <= len(P) /
MaxPayloadLen`, so that a further write is issued) and the next write returns
an error or a number of bytes other than the number asked (fewer, in
particular), `WritePacket` returns `ErrBadConn`, issues no write after the
failing one (`k + 1` `Write` calls in all, the rest of the stream's answers is
left unused), and `Sequence` has advanced by `k`, the number of frames accepted
in full: the failing frame does not advance it. The frames accepted are the
first `k` frames of the wire format. -/
theorem WritePacket_short_write (u : List Nat) (os : List (Nat × Bool)) (w : List (List Nat))
    (s h0 h1 h2 h3 : Nat) (P : List Nat) (k n : Nat) (err : Bool) (hs : s < 256)
    (hk : k ≤ P.length / MaxPayloadLen)
    (hfail : err = true ∨ n ≠ (if k < P.length / MaxPayloadLen then 4 + MaxPayloadLen
      else 4 + P.length % MaxPayloadLen)) :
    ∃ r, WritePacket
          ⟨⟨u, List.replicate k (4 + MaxPayloadLen, false) ++ (n, err) :: os, w⟩, s⟩
          (h0 :: h1 :: h2 :: h3 :: P) = some r ∧
      r.err = some .ErrBadConn ∧
      r.c.Sequence = (s + k) % 256 ∧
      r.c.Conn.written.length = w.length + k + 1 ∧
      r.c.Conn.outcomes = os ∧
      r.c.Conn.written =
        w ++ (wireFrames s P).take k ++ [((wireFrames s P).getD k []).take n] := by
  have hlen : (h0 :: h1 :: h2 :: h3 :: P).length - 4 = P.length := by
    simp only [List.length_cons]
    omega
  obtain ⟨B, hB⟩ := writeFrames_short_write k u os w s [] (h0 :: h1 :: h2 :: h3 :: P) n err hs
    (by simp only [List.length_cons]; omega) (by rw [hlen]; exact hk) (by rw [hlen]; exact hfail)
  refine ⟨_, hB, rfl, rfl, ?_, rfl, rfl⟩
  show (w ++ (wireFrames s P).take k ++ [((wireFrames s P).getD k []).take n]).length = _
  rw [List.length_append, List.length_append, List.length_take, wireFrames_length,
    List.length_singleton, Nat.min_eq_left (by omega)]

theorem WritePacket_short_write_witness :
    ∃ r, WritePacket ⟨⟨[], List.replicate 0 (4 + MaxPayloadLen, false) ++ (3, false) :: [], []⟩, 7⟩
          [0, 0, 0, 0, 1, 2] = some r ∧
      r.err = some .ErrBadConn ∧ r.c.Sequence = (7 + 0) % 256 ∧
      r.c.Conn.written.length = ([] : List (List Nat)).length + 0 + 1 ∧
      r.c.Conn.outcomes = [] := by
  obtain ⟨r, h1, h2, h3, h4, h5, _⟩ :=
    WritePacket_short_write [] [] [] 7 0 0 0 0 [1, 2] 0 3 false (by decide) (Nat.zero_le _)
      (Or.inr (by rw [MaxPayloadLen_eq]; decide))
  exact ⟨r, h1, h2, h3, h4, h5⟩

/-! ## The caller's buffer -/

theorem getElem?_header_data (a b c d : Nat) (data : List Nat) (t : Nat) (ht : 4 ≤ t) :
    (a :: b :: c :: d :: data.drop 4)[t]? = data[t]? := by
  obtain ⟨k, rfl⟩ : ∃ k, t = k + 4 := ⟨t - 4, by omega⟩
  rw [List.getElem?_cons_succ, List.getElem?_cons_succ, List.getElem?_cons_succ,
    List.getElem?_cons_succ, List.getElem?_drop, Nat.add_comm 4 k]

theorem getElem?_header_eq (a b c d : Nat) (X Y : List Nat) (i : Nat) (hi : i < 4) :
    (a :: b :: c :: d :: X)[i]? = (a :: b :: c :: d :: Y)[i]? := by
  match i, hi with
  | 0, _ => simp
  | 1, _ => simp
  | 2, _ => simp
  | 3, _ => simp

/-- What the body of `WritePacket` leaves in the caller's buffer on a stream
that accepts every write: the part left behind is kept, the window is kept
outside the header positions `j * MaxPayloadLen + i`, and these hold the bytes
`i < 4` of frame `j` of the wire format. -/
theorem writeFrames_buffer (q : Nat) :
    ∀ (u : List Nat) (w : List (List Nat)) (s : Nat) (pre data : List Nat),
      s < 256 → 4 ≤ data.length → (data.length - 4) / MaxPayloadLen = q →
      ∃ r, writeFrames ⟨⟨u, [], w⟩, s⟩ pre data ((data.length : Int) - 4) = some r ∧
        r.buffer.length = pre.length + data.length ∧
        (∀ p, p < pre.length → r.buffer[p]? = pre[p]?) ∧
        (∀ t, (∀ j, j ≤ q → ∀ i, i < 4 → t ≠ j * MaxPayloadLen + i) →
          r.buffer[pre.length + t]? = data[t]?) ∧
        (∀ j, j ≤ q → ∀ i, i < 4 →
          r.buffer[pre.length + (j * MaxPayloadLen + i)]? =
            ((wireFrames s (data.drop 4)).getD j [])[i]?) := by
  induction q with
  | zero =>
    intro u w s pre data hs hd hq
    have hlt : data.length - 4 < MaxPayloadLen := (Nat.div_eq_zero_iff MaxPayloadLen_pos).mp hq
    have hc : ((data.length : Int) - 4) = ((data.length - 4 : Nat) : Int) := by omega
    refine ⟨_, writeFrames_final u w s pre data _ (by omega) hd, ?_, ?_, ?_, ?_⟩
    · show (pre ++ _).length = _
      rw [List.length_append]
      simp only [List.length_cons, List.length_drop]
      omega
    · intro p hp
      show (pre ++ _)[p]? = _
      rw [List.getElem?_append_left hp]
    · intro t ht
      have h4 : 4 ≤ t := by
        by_contra hlt4
        exact ht 0 (Nat.le_refl _) t (by omega) (by rw [Nat.zero_mul, Nat.zero_add])
      show (pre ++ _)[pre.length + t]? = _
      rw [List.getElem?_append_right (Nat.le_add_right _ _), Nat.add_sub_cancel_left,
        getElem?_header_data _ _ _ _ data t h4]
    · intro j hj i hi
      have hj0 : j = 0 := by omega
      subst hj0
      show (pre ++ _)[pre.length + (0 * MaxPayloadLen + i)]? = _
      rw [Nat.zero_mul, Nat.zero_add, List.getElem?_append_right (Nat.le_add_right _ _),
        Nat.add_sub_cancel_left, wireFrames_lt s _ (by rw [List.length_drop]; exact hlt),
        List.getD_cons_zero, hc, byte_natCast, byte_shiftRight, byte_shiftRight,
        List.length_drop, Nat.mod_eq_of_lt hs]
  | succ q ih =>
    intro u w s pre data hs hd hq
    have hM4 : 4 ≤ MaxPayloadLen := by
      rw [MaxPayloadLen_eq]
      omega
    have hge : MaxPayloadLen ≤ data.length - 4 := by
      by_contra hlt
      rw [Nat.div_eq_of_lt (by omega)] at hq
      omega
    have hq1 : (data.length - 4 - MaxPayloadLen) / MaxPayloadLen = q := by
      rw [Nat.div_eq_sub_div MaxPayloadLen_pos hge] at hq
      omega
    have hdrop : (0xff :: 0xff :: 0xff :: s :: data.drop 4).drop MaxPayloadLen
        = data.drop MaxPayloadLen := by
      have e : 4 + (MaxPayloadLen - 4) = MaxPayloadLen := by omega
      rw [drop_header _ _ _ _ _ _ hM4, List.drop_drop, e]
    have hlen : (data.drop MaxPayloadLen).length = data.length - MaxPayloadLen :=
      List.length_drop _ _
    have hc : ((data.length : Int) - 4 - MaxPayloadLen)
        = (((data.drop MaxPayloadLen).length : Nat) : Int) - 4 := by
      rw [hlen]
      omega
    have hq2 : data.length - MaxPayloadLen - 4 = data.length - 4 - MaxPayloadLen := by omega
    have hpre : (pre ++ (0xff :: 0xff :: 0xff :: s :: data.drop 4).take MaxPayloadLen).length
        = pre.length + MaxPayloadLen := by
      rw [List.length_append, List.length_take]
      simp only [List.length_cons, List.length_drop]
      omega
    obtain ⟨r, hr, p1, p2, p3, p4⟩ := ih u
      (w ++ [0xff :: 0xff :: 0xff :: s :: (data.drop 4).take MaxPayloadLen]) ((s + 1) % 256)
      (pre ++ (0xff :: 0xff :: 0xff :: s :: data.drop 4).take MaxPayloadLen)
      (data.drop MaxPayloadLen) (Nat.mod_lt _ (by omega)) (by rw [hlen]; omega)
      (by rw [hlen, hq2]; exact hq1)
    rw [hpre] at p1 p2 p3 p4
    have hwin : ∀ t, t < MaxPayloadLen →
        r.buffer[pre.length + t]? = (0xff :: 0xff :: 0xff :: s :: data.drop 4)[t]? := by
      intro t ht
      rw [p2 (pre.length + t) (by omega), List.getElem?_append_right (Nat.le_add_right _ _),
        Nat.add_sub_cancel_left, List.getElem?_take_of_lt ht]
    refine ⟨r, ?_, ?_, ?_, ?_, ?_⟩
    · rw [writeFrames_loop u w s pre data _ (by omega) (by omega), hdrop, hc]
      exact hr
    · rw [p1, hlen]
      omega
    · intro p hp
      rw [p2 p (by omega), List.getElem?_append_left hp]
    · intro t ht
      by_cases htM : t < MaxPayloadLen
      · have h4 : 4 ≤ t := by
          by_contra hlt4
          exact ht 0 (Nat.zero_le _) t (by omega) (by rw [Nat.zero_mul, Nat.zero_add])
        rw [hwin t htM, getElem?_header_data _ _ _ _ data t h4]
      · obtain ⟨t1, rfl⟩ : ∃ t1, t = MaxPayloadLen + t1 := ⟨t - MaxPayloadLen, by omega⟩
        have ht1 : ∀ j, j ≤ q → ∀ i, i < 4 → t1 ≠ j * MaxPayloadLen + i := by
          intro j hj i hi heq
          apply ht (j + 1) (by omega) i hi
          rw [Nat.succ_mul, heq]
          omega
        rw [← Nat.add_assoc, p3 t1 ht1, List.getElem?_drop]
    · intro j hj i hi
      rw [wireFrames_ge s _ (by rw [List.length_drop]; exact hge), Nat.mod_eq_of_lt hs]
      match j, hj with
      | 0, _ =>
        rw [Nat.zero_mul, Nat.zero_add, hwin i (by omega), List.getD_cons_zero]
        exact getElem?_header_eq _ _ _ _ _ _ i hi
      | j + 1, hj1 =>
        have e : pre.length + ((j + 1) * MaxPayloadLen + i)
            = pre.length + MaxPayloadLen + (j * MaxPayloadLen + i) := by
          rw [Nat.succ_mul]
          omega
        rw [e, p4 j (by omega) i hi, List.getD_cons_succ, List.drop_drop, List.drop_drop,
          Nat.add_comm MaxPayloadLen 4]

/-- C17. Effect of `WritePacket` on the caller's buffer: for a buffer of 4
reserved bytes and a payload `P` of length `L`, a counter value and a stream
that accepts every write, the call returns no error, the buffer keeps its
length, and every position other than the offsets `j * MaxPayloadLen + i` with
`j <= L / MaxPayloadLen` and `i < 4` holds what it held; these offsets hold
byte `i` of the header of frame `j`. So for `L < MaxPayloadLen` only the 4
reserved bytes change, and for `L >= MaxPayloadLen` the 4 payload bytes that
end each full-size chunk are overwritten by the header of the next frame,
while the frames handed to `Write` carry the payload as it was. -/
theorem WritePacket_buffer_effect (u : List Nat) (w : List (List Nat)) (s h0 h1 h2 h3 : Nat)
    (P : List Nat) (hs : s < 256) :
    ∃ r, WritePacket ⟨⟨u, [], w⟩, s⟩ (h0 :: h1 :: h2 :: h3 :: P) = some r ∧ r.err = none ∧
      r.buffer.length = 4 + P.length ∧
      (∀ p, (∀ j, j ≤ P.length / MaxPayloadLen → ∀ i, i < 4 → p ≠ j * MaxPayloadLen + i) →
        r.buffer[p]? = (h0 :: h1 :: h2 :: h3 :: P)[p]?) ∧
      (∀ j, j ≤ P.length / MaxPayloadLen → ∀ i, i < 4 →
        r.buffer[j * MaxPayloadLen + i]? = ((wireFrames s P).getD j [])[i]?) ∧
      (P.length < MaxPayloadLen → r.buffer.drop 4 = P) ∧
      r.c.Conn.written = w ++ wireFrames s P := by
  have hlen : (h0 :: h1 :: h2 :: h3 :: P).length - 4 = P.length := by
    simp only [List.length_cons]
    omega
  obtain ⟨B, hB⟩ := WritePacket_accepting u w s h0 h1 h2 h3 P hs
  obtain ⟨r, hr, p1, _, p3, p4⟩ := writeFrames_buffer (P.length / MaxPayloadLen) u w s []
    (h0 :: h1 :: h2 :: h3 :: P) hs (by simp only [List.length_cons]; omega) (by rw [hlen])
  have hrB : r = ⟨none, ⟨⟨u, [], w ++ wireFrames s P⟩,
      (s + P.length / MaxPayloadLen + 1) % 256⟩, B⟩ := by
    rw [WritePacket, hr] at hB
    exact Option.some.inj hB
  have q3 : ∀ p, (∀ j, j ≤ P.length / MaxPayloadLen → ∀ i, i < 4 →
      p ≠ j * MaxPayloadLen + i) → r.buffer[p]? = (h0 :: h1 :: h2 :: h3 :: P)[p]? := by
    intro p hp
    have e := p3 p hp
    rw [List.length_nil, Nat.zero_add] at e
    exact e
  refine ⟨r, by rw [WritePacket]; exact hr, by rw [hrB], ?_, q3, ?_, ?_, by rw [hrB]⟩
  · rw [p1, List.length_nil, Nat.zero_add]
    simp only [List.length_cons]
    omega
  · intro j hj i hi
    have e := p4 j hj i hi
    rw [List.length_nil, Nat.zero_add] at e
    exact e
  · intro hlt
    apply List.ext_getElem?
    intro n
    have hq : P.length / MaxPayloadLen = 0 := Nat.div_eq_of_lt hlt
    rw [List.getElem?_drop, q3 (4 + n)]
    · rw [Nat.add_comm 4 n, List.getElem?_cons_succ, List.getElem?_cons_succ,
        List.getElem?_cons_succ, List.getElem?_cons_succ]
    · intro j hj i hi
      have hj0 : j = 0 := by omega
      rw [hj0, Nat.zero_mul, Nat.zero_add]
      omega

theorem WritePacket_buffer_effect_witness :
    ∃ r, WritePacket ⟨⟨[], [], []⟩, 7⟩ [9, 9, 9, 9, 1, 2] = some r ∧ r.err = none ∧
      r.buffer.length = 4 + [1, 2].length ∧ r.buffer.drop 4 = [1, 2] := by
  obtain ⟨r, h1, h2, h3, _, _, h6, _⟩ :=
    WritePacket_buffer_effect [] [] 7 9 9 9 9 [1, 2] (by decide)
  exact ⟨r, h1, h2, h3, h6 (by rw [MaxPayloadLen_eq]; decide)⟩

end Mysql
